import Mathlib

/-!
# killface: a memory watchdog

A shallow embedding of `settings.go` and `killface.go`.

* Go `int`, `int64` and `time.Duration` values are integers; additions that can
  leave the 64-bit range are wrapped with `wrapInt64`, and the conversion
  `int32(pid)` is `toInt32`.
* Go `uint64` values (byte counts) are natural numbers; the code only compares
  them.
* Go `float32` values are modelled by `F32`: either NaN or a rational value.
  The code only compares such values, and comparisons of floats are exact.
* A Go `map[int]time.Duration` is a list of entries without repeated keys. A
  `range` over the map visits the entries in the order of the list; Go leaves
  that order unspecified, so statements quantify over every list.
* The operating system (the libraries `go-ps` and `gopsutil`) is a `Provider`:
  one snapshot of what every query answers during one cycle.
* A function that can panic returns an option, and none is the panic:
  `totalMemory` (a nil pointer from `mem.VirtualMemory`), hence `SetMaxMemory`
  and `Monitor`, and `Reset` and `NewKiller` (`time.NewTicker` on an interval
  that is not positive).
* The calls of `kill` are effects on the operating system; the killer records
  them, with their results, in `kills`.
-/

namespace Killface

/-! ## Machine integers -/

/-- Wrap-around of a signed 64-bit result (two's complement). -/
def wrapInt64 (x : Int) : Int := (x + 2 ^ 63) % 2 ^ 64 - 2 ^ 63

/-- The Go conversion `int32(x)` of an `int`. -/
def toInt32 (x : Int) : Int := (x + 2 ^ 31) % 2 ^ 32 - 2 ^ 31

/-- The Go constant `time.Second`, in nanoseconds. -/
def Second : Int := 1000000000

/-! ## float32 -/

/-- A `float32`: NaN, or a value. Only comparisons are used by the program. -/
inductive F32 where
  | nan : F32
  | val (q : ℚ) : F32
deriving DecidableEq

namespace F32

/-- The Go comparison `a == 0`. -/
def isZero : F32 → Bool
  | nan => false
  | val q => decide (q = 0)

/-- The Go comparison `a != 0` (true for NaN). -/
def neZero (a : F32) : Bool := !a.isZero

/-- The Go comparison `a > b` (false when either side is NaN). -/
def gt : F32 → F32 → Bool
  | val a, val b => decide (b < a)
  | _, _ => false

/-- The Go comparison `a >= b` (false when either side is NaN). -/
def ge : F32 → F32 → Bool
  | val a, val b => decide (b ≤ a)
  | _, _ => false

end F32

/-! ## Strings -/

/-- A Go `string`: a sequence of bytes. `len` is `List.length` and the slice
`s[0:n]` is `List.take n`. -/
abbrev GoString := List (Fin 256)

/-! ## Errors -/

/-- A Go `error` value: the two error types of the package, or an error
returned by a library. -/
inductive GoError where
  | invalidSettings (message : String) : GoError
  | monitor (message : String) : GoError
  | library (message : String) : GoError
deriving DecidableEq

/-- Whether the error is an `*InvalidSettingsErr`. -/
def GoError.isInvalidSettings : GoError → Bool
  | .invalidSettings _ => true
  | _ => false

/-- Whether the error is a `*MonitorErr`. -/
def GoError.isMonitor : GoError → Bool
  | .monitor _ => true
  | _ => false

/-! ## The process provider -/

/-- One snapshot of the operating system as seen through `go-ps` and
`gopsutil`. Library errors carry their text. -/
structure Provider where
  /-- Result of `mem.VirtualMemory()`: the pointer, none when it is nil and the
  field `Total` of the struct otherwise, and the error. -/
  virtualMemory : Option Nat × Option String
  /-- Result of `gops.Processes()`: pid and executable of every process. -/
  processes : Except String (List (Int × GoString))
  /-- Whether `process.NewProcess(pid)` succeeds. -/
  newProcess : Int → Bool
  /-- Result of `proc.MemoryInfo()`: the field `RSS`, or none on error. -/
  memoryInfo : Int → Option Nat
  /-- Result of `proc.MemoryPercent()`, or none on error. -/
  memoryPercent : Int → Option F32
  /-- Result of `proc.Kill()`: none on success, the error text otherwise. -/
  killProc : Int → Option String

/-- The function `totalMemory`. It reads `v.Total` before the error is tested,
so it panics when the pointer is nil: none is the panic, otherwise the total
and the error. -/
def totalMemory (w : Provider) : Option (Nat × Option String) :=
  match w.virtualMemory with
  | (none, _) => none
  | (some total, err) => some (total, err)

/-! ## settings.go -/

/-- The struct `Settings`. -/
structure Settings where
  maxMemory : Nat
  percentMemory : F32
  procName : GoString
  killAll : Bool
  debug : Bool
  interval : Int
  allowedTime : Int
deriving DecidableEq

/-- The constructor `NewSettings`; fields not listed have their zero value. -/
def NewSettings : Settings :=
  { maxMemory := 0
    percentMemory := F32.val 70
    procName := []
    killAll := false
    debug := false
    interval := 1 * Second
    allowedTime := 10 * Second }

/-- The method `SetMaxMemory`; none when `totalMemory` panics. -/
def SetMaxMemory (w : Provider) (s : Settings) (maxMemory : Nat) :
    Option (Settings × Option GoError) :=
  match totalMemory w with
  | none => none
  | some (_, some err) => some (s, some (GoError.library err))
  | some (total, none) =>
    if maxMemory > total then
      some (s, some (GoError.invalidSettings
        ("maxMemory greater than system total of " ++ toString total)))
    else
      some ({ s with maxMemory := maxMemory, percentMemory := F32.val 0 }, none)

/-- The method `SetPercentMemory`. -/
def SetPercentMemory (s : Settings) (percentMemory : F32) :
    Settings × Option GoError :=
  if percentMemory.isZero || percentMemory.gt (F32.val 100) then
    (s, some (GoError.invalidSettings "percent of memory can not be 0 or > 100"))
  else
    ({ s with percentMemory := percentMemory, maxMemory := 0 }, none)

/-- The method `ProcName`; `linux` says whether `runtime.GOOS == "linux"`. -/
def ProcName (linux : Bool) (s : Settings) (procName : GoString) :
    Settings × Option GoError :=
  if procName = [] then
    (s, some (GoError.invalidSettings "process name must be set"))
  else
    let procName :=
      if procName.length > 15 && linux then procName.take 15 else procName
    ({ s with procName := procName }, none)

/-- The method `KillAll`. -/
def KillAll (s : Settings) : Settings := { s with killAll := true }

/-- The method `SetInterval`. -/
def SetInterval (s : Settings) (interval : Int) : Settings × Option GoError :=
  if interval = 0 then
    (s, some (GoError.invalidSettings "interval must be greater than 0"))
  else
    ({ s with interval := interval }, none)

/-- The method `SetAllowedTime`. -/
def SetAllowedTime (s : Settings) (allowedTime : Int) : Settings × Option GoError :=
  if allowedTime ≤ s.interval then
    (s, some (GoError.invalidSettings "allowedTime must be greater than interval"))
  else
    ({ s with allowedTime := allowedTime }, none)

/-- The method `Debug`. -/
def Debug (s : Settings) : Settings := { s with debug := true }

/-! ## The tracked-process mapping -/

/-- The Go type `map[int]time.Duration`: entries in the order a `range`
visits them. -/
abbrev PidMap := List (Int × Int)

namespace PidMap

/-- The keys of the map, in iteration order. -/
def keys (m : PidMap) : List Int := m.map Prod.fst

/-- The lookup `v, ok := m[pid]`, as an option. -/
def lookup (m : PidMap) (pid : Int) : Option Int :=
  match m with
  | [] => none
  | (k, v) :: rest => if k = pid then some v else lookup rest pid

/-- The test `_, ok := m[pid]`. -/
def contains (m : PidMap) (pid : Int) : Bool := (lookup m pid).isSome

/-- The read `m[pid]`: the zero value when the key is absent. -/
def get (m : PidMap) (pid : Int) : Int := (lookup m pid).getD 0

/-- The assignment `m[pid] = v`: overwrite the entry, or add one. -/
def set (m : PidMap) (pid : Int) (v : Int) : PidMap :=
  match m with
  | [] => [(pid, v)]
  | (k, x) :: rest => if k = pid then (k, v) :: rest else (k, x) :: set rest pid v

/-- The builtin `delete(m, pid)`. -/
def delete (m : PidMap) (pid : Int) : PidMap :=
  m.filter (fun e => decide (e.1 ≠ pid))

/-- A well-formed map has no repeated key. -/
def WF (m : PidMap) : Prop := (keys m).Nodup

instance (m : PidMap) : Decidable (WF m) := by unfold WF; infer_instance

end PidMap

/-! ## killface.go -/

/-- The method `isOverThreshold`; `proc` is the pid the handle was made for. -/
def isOverThreshold (s : Settings) (w : Provider) (proc : Int) : Bool :=
  match w.memoryInfo proc with
  | none => false
  | some rss =>
    if s.maxMemory ≠ 0 ∧ rss ≥ s.maxMemory then true
    else if s.percentMemory.neZero then
      match w.memoryPercent proc with
      | none => false
      | some percent => if percent.ge s.percentMemory then true else false
    else false

/-- One iteration of the loop of `checkExceeded`, at the entry
`(pid, exceededTime)`; `acc` holds the slice `pidsToKill` and the map. -/
def checkExceededStep (s : Settings) (w : Provider) (acc : List Int × PidMap)
    (e : Int × Int) : List Int × PidMap :=
  let pid := e.1
  let exceededTime := e.2
  if w.newProcess (toInt32 pid) = false then
    (acc.1, acc.2.delete pid)
  else if isOverThreshold s w (toInt32 pid) then
    let m := acc.2.set pid (wrapInt64 (acc.2.get pid + s.interval))
    if exceededTime ≥ s.allowedTime then (acc.1 ++ [pid], m) else (acc.1, m)
  else
    -- the assignment `exceededTime = 0` changes the loop variable only
    acc

/-- The method `checkExceeded`: the slice it returns and the map afterwards.
The receiver's map `k.pids` and the argument `pids` are the same map at the
only call. -/
def checkExceeded (s : Settings) (w : Provider) (pids : PidMap) : List Int × PidMap :=
  pids.foldl (checkExceededStep s w) ([], pids)

/-- The method `kill`: none on success, the error text otherwise. -/
def kill (w : Provider) (pid : Int) : Option String :=
  if w.newProcess (toInt32 pid) = false then some "process does not exist"
  else w.killProc (toInt32 pid)

/-- What `killCheck` produces: the slice it returns, the map afterwards, and
the result of each call of `kill`, in order. -/
structure KillCheck where
  pidsToKill : List Int
  pids : PidMap
  killed : List (Int × Option String)

/-- The method `killCheck`. -/
def killCheck (s : Settings) (w : Provider) (pids : PidMap) : KillCheck :=
  let r := checkExceeded s w pids
  let exceeded := r.1
  let pids := r.2
  if exceeded.length = 0 then
    { pidsToKill := exceeded, pids := pids, killed := [] }
  else
    let pidsToKill :=
      if s.killAll then
        -- `i := 0` is never incremented: every key is written to index 0
        pids.keys.foldl (fun a pid => a.set 0 pid) (List.replicate pids.length 0)
      else exceeded
    { pidsToKill := pidsToKill, pids := pids,
      killed := pidsToKill.map (fun pid => (pid, kill w pid)) }

/-- The function `findPidsByName`. -/
def findPidsByName (w : Provider) (name : GoString) : Except String PidMap :=
  match w.processes with
  | .error err => .error err
  | .ok procs =>
    .ok (procs.foldl (fun mpids proc => if proc.2 = name then mpids.set proc.1 0 else mpids) [])

/-- The method `refreshPids`: the map afterwards and the error. -/
def refreshPids (s : Settings) (w : Provider) (pids : PidMap) : PidMap × Option GoError :=
  match findPidsByName w s.procName with
  | .error err =>
    (pids, some (GoError.monitor ("error trying to find pids: " ++ err ++ "\n")))
  | .ok foundPids =>
    (foundPids.foldl
      (fun m e => if m.contains e.1 then m else m.set e.1 e.2) pids, none)

/-- The struct `Killer`. The channel `KilledCh` is the list of values sent on
it so far; the ticker and the channel `done` are the events fed to `Monitor`.
The field `kills` is not in the Go struct: it records the calls of `kill` made
so far, each with its result, in order. -/
structure Killer where
  settings : Settings
  systemMemory : Nat
  pids : PidMap
  KilledCh : List (List Int)
  kills : List (Int × Option String)
deriving DecidableEq

/-- The library function `time.NewTicker(d)`: it panics (none) unless `d > 0`,
and otherwise returns a ticker of period `d`. -/
def NewTicker (d : Int) : Option Int := if 0 < d then some d else none

/-- The method `Reset`: a new empty map, a new channel `KilledCh` and a new
ticker; none when `time.NewTicker` panics. The ticker and the new channel
`done` are not part of the state. -/
def Reset (k : Killer) : Option Killer :=
  match NewTicker k.settings.interval with
  | none => none
  | some _ => some { k with pids := [], KilledCh := [] }

/-- The constructor `NewKiller`; none when `Reset` panics. -/
def NewKiller (settings : Settings) : Option Killer :=
  Reset { settings := settings, systemMemory := 0, pids := [], KilledCh := [], kills := [] }

/-- What the `select` of `Monitor` receives: a tick of the ticker, with the
provider snapshot the cycle then observes, or the closing of `done`. -/
inductive Event where
  | tick (w : Provider) : Event
  | done : Event

/-- The body of the case `<-k.ticker.C`: the killer afterwards, and the error
when the case returns. -/
def cycle (k : Killer) (w : Provider) : Killer × Option GoError :=
  match refreshPids k.settings w k.pids with
  | (pids, some err) => ({ k with pids := pids }, some err)
  | (pids, none) =>
    let r := killCheck k.settings w pids
    let k1 := { k with pids := r.pids, kills := k.kills ++ r.killed }
    if r.pidsToKill.length > 0 then
      ({ k1 with KilledCh := k.KilledCh ++ [r.pidsToKill] }, none)
    else
      (k1, none)

/-- The loop of `Monitor` over the events received: the killer afterwards and
`some err` when the loop returned `err` (`some none` is the return of nil),
`none` when it waits in `select` after the last event. -/
def monitorLoop (k : Killer) : List Event → Killer × Option (Option GoError)
  | [] => (k, none)
  | Event.done :: _ => (k, some none)
  | Event.tick w :: rest =>
    match cycle k w with
    | (k1, some err) => (k1, some (some err))
    | (k1, none) => monitorLoop k1 rest

/-- The method `Monitor`; `w0` is the provider on entry. None when
`totalMemory` panics. -/
def Monitor (w0 : Provider) (k : Killer) (events : List Event) :
    Option (Killer × Option (Option GoError)) :=
  match totalMemory w0 with
  | none => none
  | some (total, some err) =>
    some ({ k with systemMemory := total }, some (some (GoError.library err)))
  | some (total, none) =>
    let k := { k with systemMemory := total }
    if k.settings.procName = [] then
      some (k, some (some (GoError.monitor "procname not properly supplied")))
    else some (monitorLoop k events)

/-! ## Observers used by the statements -/

/-- The entry a pass of `checkExceeded` leaves for the entry `e`: none when the
pid does not resolve, the overage plus one interval when the process is over
the threshold, the entry itself otherwise. -/
def entryAfter (s : Settings) (w : Provider) (e : Int × Int) : Option (Int × Int) :=
  if w.newProcess (toInt32 e.1) = false then none
  else if isOverThreshold s w (toInt32 e.1) then
    some (e.1, wrapInt64 (e.2 + s.interval))
  else some e

/-- Whether a pass of `checkExceeded` appends the pid of the entry `e`. -/
def isMarked (s : Settings) (w : Provider) (e : Int × Int) : Bool :=
  w.newProcess (toInt32 e.1) && isOverThreshold s w (toInt32 e.1) &&
    decide (e.2 ≥ s.allowedTime)

/-- The first `n` ticks of a run: sample `i` observes the provider `env i`,
for `i` from 1 to `n`. -/
def ticks (env : Nat → Provider) (n : Nat) : List Event :=
  (List.range n).map (fun i => Event.tick (env (i + 1)))

/-- The killer `NewKiller` returns for the settings `s`, when it returns. -/
def fresh (s : Settings) : Killer :=
  { settings := s, systemMemory := 0, pids := [], KilledCh := [], kills := [] }

/-- The killer after `Monitor`, started on a new `Killer`, has taken the first
`n` samples of the run `env`; the killer before the call that panics when
`NewKiller` or `Monitor` panics. -/
def sampled (w0 : Provider) (s : Settings) (env : Nat → Provider) (n : Nat) : Killer :=
  match NewKiller s with
  | none => fresh s
  | some k =>
    match Monitor w0 k (ticks env n) with
    | none => k
    | some r => r.1

/-- The number of calls of `kill` on `pid` made so far. -/
def killCalls (k : Killer) (pid : Int) : Nat :=
  (k.kills.filter (fun e => decide (e.1 = pid))).length

/-- The number of notifications sent on `KilledCh` that contain `pid`. -/
def killCount (k : Killer) (pid : Int) : Nat :=
  (k.KilledCh.filter (fun l => decide (pid ∈ l))).length

/-- One call of a setter of `Settings`, with its arguments; `SetMaxMemory`
also reads the provider and `ProcName` the platform. -/
inductive SetterCall where
  | setMaxMemory (w : Provider) (maxMemory : Nat) : SetterCall
  | setPercentMemory (percentMemory : F32) : SetterCall
  | procName (linux : Bool) (name : GoString) : SetterCall
  | killAll : SetterCall
  | setInterval (interval : Int) : SetterCall
  | setAllowedTime (allowedTime : Int) : SetterCall
  | debug : SetterCall

/-- The settings after one setter call, whether it returned an error or not;
a call that panics has stored nothing. -/
def SetterCall.run (s : Settings) : SetterCall → Settings
  | .setMaxMemory w maxMemory =>
    match SetMaxMemory w s maxMemory with
    | none => s
    | some r => r.1
  | .setPercentMemory percentMemory => (SetPercentMemory s percentMemory).1
  | .procName linux name => (ProcName linux s name).1
  | .killAll => KillAll s
  | .setInterval interval => (SetInterval s interval).1
  | .setAllowedTime allowedTime => (SetAllowedTime s allowedTime).1
  | .debug => Debug s

/-- The settings reached from `NewSettings` by a sequence of setter calls. -/
def reached (calls : List SetterCall) : Settings :=
  calls.foldl SetterCall.run NewSettings

/-! ## Concrete inputs -/

/-- The executable name `memconsume`, in bytes. -/
def memconsume : GoString := [109, 101, 109, 99, 111, 110, 115, 117, 109, 101]

/-- Settings of the scenario: absolute threshold 100 MB, interval 1 s, allowed
time 3 s, kill only the offending process. -/
def scenarioSettings : Settings :=
  { maxMemory := 100 * 1024 * 1024
    percentMemory := F32.val 0
    procName := memconsume
    killAll := false
    debug := false
    interval := 1 * Second
    allowedTime := 3 * Second }

/-- The settings of the scenario with an allowed time of 2.5 s. -/
def shortSettings : Settings :=
  { scenarioSettings with allowedTime := 2500000000 }

/-- The settings of the scenario with an interval of 2^62 ns and an allowed
time one nanosecond longer. -/
def longSettings : Settings :=
  { scenarioSettings with
    interval := 4611686018427387904
    allowedTime := 4611686018427387905 }

/-- A provider with two processes named `memconsume`: pid 5 holds 200 MB and
pid 7 holds 10 MB; every query succeeds. -/
def twoProcs : Provider :=
  { virtualMemory := (some (8 * 1024 * 1024 * 1024), none)
    processes := .ok [(5, memconsume), (7, memconsume), (9, [105, 110, 105, 116])]
    newProcess := fun p => p = 5 || p = 7 || p = 9
    memoryInfo := fun p => if p = 5 then some (200 * 1024 * 1024) else some (10 * 1024 * 1024)
    memoryPercent := fun p => if p = 5 then some (F32.val 80) else some (F32.val 1)
    killProc := fun _ => none }

/-- The provider `twoProcs` at a moment when pid 5 holds 10 MB as well. -/
def calmProcs : Provider :=
  { twoProcs with
    memoryInfo := fun _ => some (10 * 1024 * 1024)
    memoryPercent := fun _ => some (F32.val 1) }

/-- A run in which pid 5 is over the threshold at every sample but the third. -/
def dipRun (n : Nat) : Provider := if n = 3 then calmProcs else twoProcs

/-- A provider in which no process is left and enumeration succeeds. -/
def noProcs : Provider :=
  { virtualMemory := (some (8 * 1024 * 1024 * 1024), none)
    processes := .ok []
    newProcess := fun _ => false
    memoryInfo := fun _ => none
    memoryPercent := fun _ => none
    killProc := fun _ => some "no such process" }

/-- A provider whose `mem.VirtualMemory` returns a nil pointer and an error. -/
def nilMemory : Provider :=
  { twoProcs with virtualMemory := (none, some "sysctl: operation not permitted") }

/-- A provider whose `mem.VirtualMemory` returns a struct and an error. -/
def failedMemory : Provider :=
  { twoProcs with virtualMemory := (some 0, some "no meminfo") }

/-- A provider whose enumeration of processes fails. -/
def brokenList : Provider :=
  { twoProcs with processes := .error "open /proc: permission denied" }

/-- A run in which every sample observes `twoProcs`. -/
def steadyRun (_ : Nat) : Provider := twoProcs

/-- The run of the scenario: the two processes are there for the first four
samples, and no process is left from the fifth sample on. -/
def scenarioRun (n : Nat) : Provider := if n ≤ 4 then twoProcs else noProcs

/-! ## Lemmas on the mapping -/

namespace PidMap

theorem lookup_eq_none_iff (m : PidMap) (pid : Int) :
    lookup m pid = none ↔ pid ∉ keys m := by
  induction m with
  | nil => simp [lookup, keys]
  | cons e rest ih =>
    obtain ⟨k, v⟩ := e
    by_cases h : k = pid
    · simp [lookup, keys, h]
    · have h2 : ¬ pid = k := fun h3 => h h3.symm
      simp only [keys] at ih
      simp [lookup, keys, h, h2, ih]

theorem mem_keys_iff (m : PidMap) (pid : Int) :
    pid ∈ keys m ↔ ∃ t, lookup m pid = some t := by
  rw [← not_iff_not, ← lookup_eq_none_iff]
  cases lookup m pid <;> simp

theorem mem_of_lookup {m : PidMap} {pid t : Int} (h : lookup m pid = some t) :
    (pid, t) ∈ m := by
  induction m with
  | nil => simp [lookup] at h
  | cons e rest ih =>
    obtain ⟨k, v⟩ := e
    by_cases hk : k = pid
    · simp [lookup, hk] at h
      simp [hk, h]
    · simp [lookup, hk] at h
      exact List.mem_cons_of_mem _ (ih h)

theorem lookup_of_mem {m : PidMap} {pid t : Int} (hwf : WF m) (h : (pid, t) ∈ m) :
    lookup m pid = some t := by
  induction m with
  | nil => simp at h
  | cons e rest ih =>
    obtain ⟨k, v⟩ := e
    simp only [WF, keys, List.map_cons, List.nodup_cons] at hwf
    rcases List.mem_cons.mp h with h1 | h1
    · simp only [Prod.mk.injEq] at h1
      simp [lookup, h1.1, h1.2]
    · have hk : k ≠ pid := by
        rintro rfl
        exact hwf.1 (List.mem_map.mpr ⟨(k, t), h1, rfl⟩)
      simp only [lookup, hk, if_false]
      exact ih hwf.2 h1

theorem delete_append_cons (d rest : PidMap) (pid t : Int)
    (hd : pid ∉ keys d) (hr : pid ∉ keys rest) :
    delete (d ++ (pid, t) :: rest) pid = d ++ rest := by
  simp only [delete, List.filter_append, List.filter_cons, ne_eq, not_true_eq_false,
    decide_False, Bool.false_eq_true, if_false]
  congr 1
  · apply List.filter_eq_self.mpr
    intro e he
    simp only [decide_eq_true_eq]
    rintro rfl
    exact hd (List.mem_map.mpr ⟨e, he, rfl⟩)
  · apply List.filter_eq_self.mpr
    intro e he
    simp only [decide_eq_true_eq]
    rintro rfl
    exact hr (List.mem_map.mpr ⟨e, he, rfl⟩)

theorem lookup_append_cons (d rest : PidMap) (pid t : Int) (hd : pid ∉ keys d) :
    lookup (d ++ (pid, t) :: rest) pid = some t := by
  induction d with
  | nil => simp [lookup]
  | cons e d ih =>
    obtain ⟨k, v⟩ := e
    simp only [keys, List.map_cons, List.mem_cons, not_or] at hd
    have hk : k ≠ pid := fun h => hd.1 h.symm
    simp only [List.cons_append, lookup, hk, if_false]
    exact ih hd.2

theorem set_append_cons (d rest : PidMap) (pid t v : Int) (hd : pid ∉ keys d) :
    set (d ++ (pid, t) :: rest) pid v = d ++ (pid, v) :: rest := by
  induction d with
  | nil => simp [set]
  | cons e d ih =>
    obtain ⟨k, x⟩ := e
    simp only [keys, List.map_cons, List.mem_cons, not_or] at hd
    have hk : k ≠ pid := fun h => hd.1 h.symm
    have h := ih hd.2
    simp only [List.cons_append, set, hk, if_false]
    exact congrArg _ h

end PidMap

/-! ## The pass of checkExceeded, entry by entry -/

theorem checkExceeded_foldl (s : Settings) (w : Provider) (rest : PidMap) :
    ∀ (d : PidMap) (acc : List Int), (∀ e ∈ rest, e.1 ∉ PidMap.keys d) →
      (PidMap.keys rest).Nodup →
      rest.foldl (checkExceededStep s w) (acc, d ++ rest) =
        (acc ++ (rest.filter (isMarked s w)).map Prod.fst,
          d ++ rest.filterMap (entryAfter s w)) := by
  induction rest with
  | nil => intro d acc _ _; simp
  | cons e rest ih =>
    intro d acc hd hn
    obtain ⟨pid, t⟩ := e
    simp only [PidMap.keys, List.map_cons, List.nodup_cons] at hn
    have hpd : pid ∉ PidMap.keys d := hd (pid, t) (List.mem_cons_self _ _)
    have hrest : ∀ e ∈ rest, e.1 ∉ PidMap.keys d :=
      fun e he => hd e (List.mem_cons_of_mem _ he)
    have hext : ∀ (v : Int), ∀ e ∈ rest, e.1 ∉ PidMap.keys (d ++ [(pid, v)]) := by
      intro v e he
      simp only [PidMap.keys, List.map_append, List.map_cons, List.map_nil, List.mem_append,
        List.mem_singleton, not_or]
      refine ⟨hrest e he, ?_⟩
      rintro h
      exact hn.1 (List.mem_map.mpr ⟨e, he, h⟩)
    rw [List.foldl_cons]
    by_cases hres : w.newProcess (toInt32 pid) = false
    · have hstep : checkExceededStep s w (acc, d ++ (pid, t) :: rest) (pid, t)
          = (acc, d ++ rest) := by
        simp only [checkExceededStep, hres, if_true]
        rw [PidMap.delete_append_cons d rest pid t hpd hn.1]
      rw [hstep, ih d acc hrest hn.2]
      simp [isMarked, entryAfter, hres]
    · have hres1 : w.newProcess (toInt32 pid) = true := by simpa using hres
      by_cases hover : isOverThreshold s w (toInt32 pid) = true
      · have hm : PidMap.set (d ++ (pid, t) :: rest) pid
            (wrapInt64 (PidMap.get (d ++ (pid, t) :: rest) pid + s.interval))
            = (d ++ [(pid, wrapInt64 (t + s.interval))]) ++ rest := by
          rw [PidMap.set_append_cons d rest pid t _ hpd]
          simp [PidMap.get, PidMap.lookup_append_cons d rest pid t hpd]
        by_cases hal : t ≥ s.allowedTime
        · have hstep : checkExceededStep s w (acc, d ++ (pid, t) :: rest) (pid, t)
              = (acc ++ [pid], (d ++ [(pid, wrapInt64 (t + s.interval))]) ++ rest) := by
            simp [checkExceededStep, hres1, hover, hal, hm]
          rw [hstep, ih _ _ (hext _) hn.2]
          simp [isMarked, entryAfter, hres1, hover, hal]
        · have hstep : checkExceededStep s w (acc, d ++ (pid, t) :: rest) (pid, t)
              = (acc, (d ++ [(pid, wrapInt64 (t + s.interval))]) ++ rest) := by
            simp [checkExceededStep, hres1, hover, hal, hm]
          rw [hstep, ih _ _ (hext _) hn.2]
          simp [isMarked, entryAfter, hres1, hover, hal]
      · have hstep : checkExceededStep s w (acc, d ++ (pid, t) :: rest) (pid, t)
            = (acc, (d ++ [(pid, t)]) ++ rest) := by
          simp [checkExceededStep, hres1, hover]
        rw [hstep, ih _ _ (hext _) hn.2]
        simp [isMarked, entryAfter, hres1, hover]

/-- On a well-formed map, `checkExceeded` returns the pids of the marked
entries and leaves each entry as `entryAfter` says. -/
theorem checkExceeded_eq (s : Settings) (w : Provider) (pids : PidMap)
    (hwf : PidMap.WF pids) :
    checkExceeded s w pids =
      ((pids.filter (isMarked s w)).map Prod.fst, pids.filterMap (entryAfter s w)) := by
  have h := checkExceeded_foldl s w pids [] [] (by simp [PidMap.keys]) hwf
  simpa [checkExceeded] using h

namespace PidMap

theorem lookup_filterMap (f : Int × Int → Option (Int × Int))
    (hf : ∀ e r, f e = some r → r.1 = e.1) (m : PidMap) (hwf : WF m) (pid : Int) :
    lookup (m.filterMap f) pid =
      (lookup m pid).bind (fun t => (f (pid, t)).map Prod.snd) := by
  induction m with
  | nil => simp [lookup]
  | cons e rest ih =>
    obtain ⟨k, v⟩ := e
    simp only [WF, keys, List.map_cons, List.nodup_cons] at hwf
    have ih1 := ih hwf.2
    by_cases hk : k = pid
    · subst hk
      have hnone : lookup rest k = none := (lookup_eq_none_iff rest k).mpr hwf.1
      cases hfe : f (k, v) with
      | none =>
        rw [List.filterMap_cons_none hfe, ih1, hnone]
        simp [lookup, hfe]
      | some r =>
        have hr := hf _ _ hfe
        obtain ⟨rk, rv⟩ := r
        simp only at hr
        rw [List.filterMap_cons_some hfe]
        simp [lookup, hfe, hr]
    · cases hfe : f (k, v) with
      | none =>
        rw [List.filterMap_cons_none hfe, ih1]
        simp [lookup, hk]
      | some r =>
        have hr := hf _ _ hfe
        obtain ⟨rk, rv⟩ := r
        simp only at hr
        rw [List.filterMap_cons_some hfe]
        have hk2 : rk ≠ pid := by rw [hr]; exact hk
        simp only [lookup, hk2, hk, if_false]
        exact ih1

theorem keys_filterMap_sublist (f : Int × Int → Option (Int × Int))
    (hf : ∀ e r, f e = some r → r.1 = e.1) (m : PidMap) :
    (keys (m.filterMap f)).Sublist (keys m) := by
  induction m with
  | nil => simp [keys]
  | cons e rest ih =>
    cases hfe : f e with
    | none =>
      rw [List.filterMap_cons_none hfe]
      exact List.Sublist.cons _ ih
    | some r =>
      rw [List.filterMap_cons_some hfe]
      have hr := hf _ _ hfe
      simp only [keys, List.map_cons, hr] at ih ⊢
      exact List.Sublist.cons₂ _ ih

end PidMap

theorem entryAfter_fst (s : Settings) (w : Provider) (e r : Int × Int)
    (h : entryAfter s w e = some r) : r.1 = e.1 := by
  unfold entryAfter at h
  split at h
  · cases h
  · split at h
    · cases h; rfl
    · cases h; rfl

theorem checkExceeded_wf (s : Settings) (w : Provider) (pids : PidMap)
    (hwf : PidMap.WF pids) : PidMap.WF (checkExceeded s w pids).2 := by
  rw [checkExceeded_eq s w pids hwf]
  exact List.Nodup.sublist
    (PidMap.keys_filterMap_sublist _ (entryAfter_fst s w) pids) hwf

theorem lookup_checkExceeded (s : Settings) (w : Provider) (pids : PidMap)
    (hwf : PidMap.WF pids) (pid : Int) :
    PidMap.lookup (checkExceeded s w pids).2 pid =
      (PidMap.lookup pids pid).bind (fun t => (entryAfter s w (pid, t)).map Prod.snd) := by
  rw [checkExceeded_eq s w pids hwf]
  exact PidMap.lookup_filterMap _ (entryAfter_fst s w) pids hwf pid

theorem mem_checkExceeded (s : Settings) (w : Provider) (pids : PidMap)
    (hwf : PidMap.WF pids) (pid : Int) :
    pid ∈ (checkExceeded s w pids).1 ↔
      ∃ t, PidMap.lookup pids pid = some t ∧ isMarked s w (pid, t) = true := by
  rw [checkExceeded_eq s w pids hwf]
  simp only [List.mem_map, List.mem_filter]
  constructor
  · rintro ⟨⟨k, t⟩, ⟨hmem, hmark⟩, rfl⟩
    exact ⟨t, PidMap.lookup_of_mem hwf hmem, hmark⟩
  · rintro ⟨t, hl, hmark⟩
    exact ⟨(pid, t), ⟨PidMap.mem_of_lookup hl, hmark⟩, rfl⟩

/-! ## Claims on checkExceeded -/

/-- On a well-formed map, a tracked pid that resolves and is over the threshold
is put in the kill set exactly when the overage stored before this sample,
without the interval added at this sample, is at least `allowedTime`. -/
theorem checkExceeded_marks_iff (s : Settings) (w : Provider) (pids : PidMap)
    (pid t : Int) (hwf : PidMap.WF pids) (htracked : PidMap.lookup pids pid = some t)
    (hres : w.newProcess (toInt32 pid) = true)
    (hover : isOverThreshold s w (toInt32 pid) = true) :
    pid ∈ (checkExceeded s w pids).1 ↔ t ≥ s.allowedTime := by
  rw [mem_checkExceeded s w pids hwf pid]
  constructor
  · rintro ⟨t1, hl, hmark⟩
    rw [htracked] at hl
    cases hl
    simpa [isMarked, hres, hover] using hmark
  · intro h
    exact ⟨t, htracked, by simp [isMarked, hres, hover, h]⟩

/-- C2, at the failing input: pid 5 is tracked with 2 s of overage, resolves and
is over the threshold; with interval 1 s its new overage is 3 s, which is at
least the allowed time of 2.5 s (and of 3 s), and is what the mapping holds
afterwards, yet `checkExceeded` does not put pid 5 in the kill set: it compares
the 2 s read before the addition. -/
theorem checkExceeded_new_overage_not_marked :
    PidMap.lookup [(5, 2 * Second)] 5 = some (2 * Second) ∧
    twoProcs.newProcess (toInt32 5) = true ∧
    isOverThreshold shortSettings twoProcs (toInt32 5) = true ∧
    wrapInt64 (2 * Second + shortSettings.interval) = 3 * Second ∧
    3 * Second ≥ shortSettings.allowedTime ∧
    PidMap.lookup (checkExceeded shortSettings twoProcs [(5, 2 * Second)]).2 5
      = some (3 * Second) ∧
    (5 : Int) ∉ (checkExceeded shortSettings twoProcs [(5, 2 * Second)]).1 ∧
    3 * Second ≥ scenarioSettings.allowedTime ∧
    (5 : Int) ∉ (checkExceeded scenarioSettings twoProcs [(5, 2 * Second)]).1 := by
  decide

/-- C3, at the failing input: pid 7 is tracked with 2 s of overage, resolves
and is under the threshold, and after `checkExceeded` the mapping still holds
2 s for it, not zero. In a run with interval 1 s and allowed time 3 s in which
pid 5 is over the threshold at samples 1 and 2, under it at sample 3 and over
it again from sample 4, the mapping holds 2 s for pid 5 after sample 3 and the
pid is killed at sample 5, after two samples over the threshold since the
dip. -/
theorem checkExceeded_keeps_overage_when_under :
    twoProcs.newProcess (toInt32 7) = true ∧
    isOverThreshold scenarioSettings twoProcs (toInt32 7) = false ∧
    PidMap.lookup (checkExceeded scenarioSettings twoProcs [(7, 2 * Second)]).2 7
      = some (2 * Second) ∧
    PidMap.lookup (checkExceeded scenarioSettings twoProcs [(7, 2 * Second)]).2 7
      ≠ some 0 ∧
    isOverThreshold scenarioSettings (dipRun 3) (toInt32 5) = false ∧
    PidMap.lookup (sampled twoProcs scenarioSettings dipRun 3).pids 5 = some (2 * Second) ∧
    (sampled twoProcs scenarioSettings dipRun 4).KilledCh = [] ∧
    (sampled twoProcs scenarioSettings dipRun 5).KilledCh = [[5]] := by
  decide

/-- C9: a tracked pid that fails to resolve is absent from the mapping after
`checkExceeded` and is not in the kill set; a tracked pid that resolves is
still a key of the mapping afterwards. -/
theorem checkExceeded_drops_unresolved (s : Settings) (w : Provider) (pids : PidMap)
    (pid : Int) (hwf : PidMap.WF pids) (htracked : pid ∈ PidMap.keys pids) :
    (w.newProcess (toInt32 pid) = false →
      PidMap.lookup (checkExceeded s w pids).2 pid = none ∧
      pid ∉ PidMap.keys (checkExceeded s w pids).2 ∧
      pid ∉ (checkExceeded s w pids).1) ∧
    (w.newProcess (toInt32 pid) = true →
      pid ∈ PidMap.keys (checkExceeded s w pids).2) := by
  obtain ⟨t, ht⟩ := (PidMap.mem_keys_iff pids pid).mp htracked
  constructor
  · intro hres
    have hl : PidMap.lookup (checkExceeded s w pids).2 pid = none := by
      rw [lookup_checkExceeded s w pids hwf pid, ht]
      simp [entryAfter, hres]
    refine ⟨hl, (PidMap.lookup_eq_none_iff _ _).mp hl, ?_⟩
    rw [mem_checkExceeded s w pids hwf pid]
    rintro ⟨t1, _, hmark⟩
    simp [isMarked, hres] at hmark
  · intro hres
    rw [PidMap.mem_keys_iff, lookup_checkExceeded s w pids hwf pid, ht]
    by_cases hover : isOverThreshold s w (toInt32 pid) = true
    · exact ⟨wrapInt64 (t + s.interval), by simp [entryAfter, hres, hover]⟩
    · exact ⟨t, by simp [entryAfter, hres, hover]⟩

theorem checkExceeded_drops_unresolved_witness :
    ((noProcs.newProcess (toInt32 5) = false →
      PidMap.lookup (checkExceeded scenarioSettings noProcs [(5, Second)]).2 5 = none ∧
      (5 : Int) ∉ PidMap.keys (checkExceeded scenarioSettings noProcs [(5, Second)]).2 ∧
      (5 : Int) ∉ (checkExceeded scenarioSettings noProcs [(5, Second)]).1) ∧
    (noProcs.newProcess (toInt32 5) = true →
      (5 : Int) ∈ PidMap.keys (checkExceeded scenarioSettings noProcs [(5, Second)]).2)) ∧
    noProcs.newProcess (toInt32 5) = false :=
  ⟨checkExceeded_drops_unresolved scenarioSettings noProcs [(5, Second)] 5
    (by decide) (by decide), by decide⟩

/-! ## Claims on killCheck -/

/-- In kill-one mode `killCheck` returns what `checkExceeded` marked. -/
theorem killCheck_one_eq (s : Settings) (w : Provider) (pids : PidMap)
    (hone : s.killAll = false) :
    (killCheck s w pids).pidsToKill = (checkExceeded s w pids).1 ∧
    (killCheck s w pids).pids = (checkExceeded s w pids).2 := by
  unfold killCheck
  by_cases he : (checkExceeded s w pids).1.length = 0
  · simp [he]
  · simp [he, hone]

/-- C1, at the failing input: in kill-all mode with pids 5 and 7 tracked and
pid 5 marked, the victim list is not the tracked pids. Every key is written to
index 0, so the list holds the key visited last and a zero: pid 0 is not
tracked, and one tracked pid is missing, whichever order the map is visited
in. -/
theorem killCheck_killAll_overwrites_index_zero :
    (checkExceeded (KillAll scenarioSettings) twoProcs [(5, 3 * Second), (7, 0)]).1 = [5] ∧
    PidMap.keys (killCheck (KillAll scenarioSettings) twoProcs [(5, 3 * Second), (7, 0)]).pids
      = [5, 7] ∧
    (killCheck (KillAll scenarioSettings) twoProcs [(5, 3 * Second), (7, 0)]).pidsToKill
      = [7, 0] ∧
    (killCheck (KillAll scenarioSettings) twoProcs [(7, 0), (5, 3 * Second)]).pidsToKill
      = [5, 0] := by
  decide

/-- C5: in kill-one mode the list `killCheck` returns is the list
`checkExceeded` marked, `kill` is called on exactly those pids, every one of
them resolves and is over the threshold at this sample, and when nothing is
marked the list is empty and `kill` is not called. -/
theorem killCheck_killOne (s : Settings) (w : Provider) (pids : PidMap)
    (hone : s.killAll = false) (hwf : PidMap.WF pids) :
    (killCheck s w pids).pidsToKill = (checkExceeded s w pids).1 ∧
    (killCheck s w pids).killed.map Prod.fst = (checkExceeded s w pids).1 ∧
    (∀ pid ∈ (killCheck s w pids).pidsToKill,
      w.newProcess (toInt32 pid) = true ∧ isOverThreshold s w (toInt32 pid) = true) ∧
    ((checkExceeded s w pids).1 = [] →
      (killCheck s w pids).pidsToKill = [] ∧ (killCheck s w pids).killed = []) := by
  have h1 : (killCheck s w pids).pidsToKill = (checkExceeded s w pids).1 :=
    (killCheck_one_eq s w pids hone).1
  have h2 : (killCheck s w pids).killed.map Prod.fst = (checkExceeded s w pids).1 := by
    unfold killCheck
    by_cases he : (checkExceeded s w pids).1.length = 0
    · simp only [he, if_true, List.map_nil]
      exact (List.length_eq_zero.mp he).symm
    · simp [he, hone, Function.comp_def]
  refine ⟨h1, h2, ?_, ?_⟩
  · intro pid hpid
    rw [h1, mem_checkExceeded s w pids hwf pid] at hpid
    obtain ⟨t, _, hmark⟩ := hpid
    simp only [isMarked, Bool.and_eq_true, decide_eq_true_eq] at hmark
    exact ⟨hmark.1.1, hmark.1.2⟩
  · intro he
    refine ⟨by rw [h1, he], ?_⟩
    unfold killCheck
    simp [he]

theorem killCheck_killOne_witness :
    (killCheck scenarioSettings twoProcs [(5, 3 * Second), (7, 0)]).pidsToKill
      = (checkExceeded scenarioSettings twoProcs [(5, 3 * Second), (7, 0)]).1 ∧
    (killCheck scenarioSettings twoProcs [(5, 3 * Second), (7, 0)]).pidsToKill = [5] :=
  ⟨(killCheck_killOne scenarioSettings twoProcs [(5, 3 * Second), (7, 0)]
    (by decide) (by decide)).1, by decide⟩

/-! ## Lemmas on the lifecycle -/

theorem Reset_eq (k : Killer) (h : 0 < k.settings.interval) :
    Reset k = some { k with pids := [], KilledCh := [] } := by
  simp [Reset, NewTicker, h]

theorem Reset_none (k : Killer) (h : ¬ 0 < k.settings.interval) : Reset k = none := by
  simp [Reset, NewTicker, h]

theorem NewKiller_eq (s : Settings) (h : 0 < s.interval) : NewKiller s = some (fresh s) := by
  unfold NewKiller
  rw [Reset_eq _ h]
  rfl

theorem NewKiller_some (s : Settings) (k : Killer) (h : NewKiller s = some k) :
    k = fresh s ∧ 0 < s.interval := by
  by_cases hint : 0 < s.interval
  · rw [NewKiller_eq s hint] at h
    exact ⟨(Option.some.inj h).symm, hint⟩
  · unfold NewKiller at h
    rw [Reset_none _ hint] at h
    cases h

/-! ## Claims on the cycle of Monitor -/

theorem cycle_no_empty (k : Killer) (w : Provider) (h : [] ∉ k.KilledCh) :
    [] ∉ (cycle k w).1.KilledCh := by
  unfold cycle
  split
  · exact h
  · dsimp only
    split
    · rename_i hlen
      simp only [List.mem_append, List.mem_singleton, not_or]
      refine ⟨h, ?_⟩
      intro he
      rw [← he] at hlen
      simp at hlen
    · exact h

theorem monitorLoop_no_empty (events : List Event) :
    ∀ k : Killer, [] ∉ k.KilledCh → [] ∉ (monitorLoop k events).1.KilledCh := by
  induction events with
  | nil => intro k h; exact h
  | cons ev rest ih =>
    intro k h
    cases ev with
    | done => exact h
    | tick w =>
      have hc := cycle_no_empty k w h
      unfold monitorLoop
      split
      · rename_i k1 err heq
        rw [heq] at hc
        exact hc
      · rename_i k1 heq
        rw [heq] at hc
        exact ih k1 hc

/-- C6: a cycle of `Monitor` whose enumeration succeeds sends exactly one value
on `KilledCh`, the list returned by `killCheck`, when that list is non-empty,
and sends nothing when it is empty; a cycle whose enumeration fails sends
nothing; so the empty list is never sent, in a cycle or in a whole run of
`Monitor` on a new `Killer`. -/
theorem cycle_publishes (k : Killer) (w : Provider) :
    ((refreshPids k.settings w k.pids).2 = none →
      ((killCheck k.settings w (refreshPids k.settings w k.pids).1).pidsToKill ≠ [] →
        (cycle k w).1.KilledCh = k.KilledCh ++
          [(killCheck k.settings w (refreshPids k.settings w k.pids).1).pidsToKill]) ∧
      ((killCheck k.settings w (refreshPids k.settings w k.pids).1).pidsToKill = [] →
        (cycle k w).1.KilledCh = k.KilledCh)) ∧
    ((refreshPids k.settings w k.pids).2 ≠ none → (cycle k w).1.KilledCh = k.KilledCh) ∧
    ([] ∉ k.KilledCh → [] ∉ (cycle k w).1.KilledCh) ∧
    (∀ (w0 : Provider) (s : Settings) (events : List Event) (k0 : Killer)
        (r : Killer × Option (Option GoError)),
      NewKiller s = some k0 → Monitor w0 k0 events = some r → [] ∉ r.1.KilledCh) := by
  refine ⟨?_, ?_, cycle_no_empty k w, ?_⟩
  · intro hok
    have hsplit : refreshPids k.settings w k.pids
        = ((refreshPids k.settings w k.pids).1, none) := by
      rw [← hok]
    constructor
    · intro hne
      have hlen : (killCheck k.settings w (refreshPids k.settings w k.pids).1).pidsToKill.length
          > 0 := List.length_pos.mpr hne
      unfold cycle
      rw [hsplit]
      simp only [hlen, if_true]
    · intro hemp
      unfold cycle
      rw [hsplit]
      simp [hemp]
  · intro herr
    obtain ⟨err, he⟩ := Option.ne_none_iff_exists'.mp herr
    have hsplit : refreshPids k.settings w k.pids
        = ((refreshPids k.settings w k.pids).1, some err) := by
      rw [← he]
    unfold cycle
    rw [hsplit]
  · intro w0 s events k0 r hk hr
    have hk0 := (NewKiller_some s k0 hk).1
    subst hk0
    unfold Monitor at hr
    split at hr
    · cases hr
    · cases hr
      simp [fresh]
    · dsimp only at hr
      split at hr
      · cases hr
        simp [fresh]
      · cases hr
        exact monitorLoop_no_empty events _ (by simp [fresh])

theorem cycle_publishes_witness :
    NewKiller scenarioSettings = some (fresh scenarioSettings) ∧
    (cycle { fresh scenarioSettings with pids := [(5, 3 * Second)] } twoProcs).1.KilledCh
      = [[5]] ∧
    (cycle { fresh scenarioSettings with pids := [(5, 2 * Second)] } twoProcs).1.KilledCh
      = [] ∧
    (∀ r, Monitor twoProcs (fresh scenarioSettings) (ticks scenarioRun 5) = some r →
      [] ∉ r.1.KilledCh) := by
  have h1 := (cycle_publishes
    { fresh scenarioSettings with pids := [(5, 3 * Second)] } twoProcs).1
      (by decide)
  have h2 := (cycle_publishes
    { fresh scenarioSettings with pids := [(5, 2 * Second)] } twoProcs).1
      (by decide)
  have h3 := (cycle_publishes (fresh scenarioSettings) twoProcs).2.2.2
  exact ⟨by decide, (h1.1 (by decide)).trans (by decide), (h2.2 (by decide)).trans (by decide),
    fun r hr => h3 twoProcs scenarioSettings (ticks scenarioRun 5) _ r (by decide) hr⟩

/-! ## Claims on isOverThreshold -/

/-- C7: with exactly one threshold active, `isOverThreshold` is true if and
only if the memory queries it makes succeed and, in absolute mode, the RSS is at
least `maxMemory`, or, in percentage mode, the memory percentage is at least
`percentMemory`; it is false whenever a query it makes fails. -/
theorem isOverThreshold_iff (s : Settings) (w : Provider) (proc : Int) :
    (s.maxMemory ≠ 0 → s.percentMemory.neZero = false →
      (isOverThreshold s w proc = true ↔
        ∃ rss, w.memoryInfo proc = some rss ∧ rss ≥ s.maxMemory)) ∧
    (s.maxMemory = 0 → s.percentMemory.neZero = true →
      (isOverThreshold s w proc = true ↔
        ∃ rss, w.memoryInfo proc = some rss ∧
          ∃ percent, w.memoryPercent proc = some percent ∧
            percent.ge s.percentMemory = true)) ∧
    (w.memoryInfo proc = none → isOverThreshold s w proc = false) ∧
    (s.maxMemory = 0 → w.memoryPercent proc = none → isOverThreshold s w proc = false) := by
  refine ⟨?_, ?_, ?_, ?_⟩
  · intro habs hpct
    unfold isOverThreshold
    cases hinfo : w.memoryInfo proc with
    | none => simp
    | some rss => simp [habs, hpct]
  · intro habs hpct
    unfold isOverThreshold
    cases hinfo : w.memoryInfo proc with
    | none => simp
    | some rss =>
      cases hp : w.memoryPercent proc with
      | none => simp [habs, hpct]
      | some percent => simp [habs, hpct]
  · intro hinfo
    unfold isOverThreshold
    simp [hinfo]
  · intro habs hp
    unfold isOverThreshold
    cases hinfo : w.memoryInfo proc with
    | none => simp
    | some rss => simp [habs, hp]

theorem isOverThreshold_iff_witness :
    (isOverThreshold scenarioSettings twoProcs 5 = true ↔
      ∃ rss, twoProcs.memoryInfo 5 = some rss ∧ rss ≥ scenarioSettings.maxMemory) ∧
    (isOverThreshold NewSettings twoProcs 5 = true ↔
      ∃ rss, twoProcs.memoryInfo 5 = some rss ∧
        ∃ percent, twoProcs.memoryPercent 5 = some percent ∧
          percent.ge NewSettings.percentMemory = true) ∧
    isOverThreshold scenarioSettings twoProcs 5 = true ∧
    isOverThreshold NewSettings twoProcs 5 = true :=
  ⟨(isOverThreshold_iff scenarioSettings twoProcs 5).1 (by decide) (by decide),
    (isOverThreshold_iff NewSettings twoProcs 5).2.1 (by decide) (by decide),
    by decide, by decide⟩

/-! ## Claims on the settings -/

/-- C10: when the total-memory query succeeds, `SetMaxMemory` with a value
greater than the total returns an `InvalidSettingsErr` and leaves the settings
unchanged, and with a value at most the total it returns nil and stores the
value as the absolute threshold. -/
theorem SetMaxMemory_spec (w : Provider) (s : Settings) (maxMemory total : Nat)
    (hquery : totalMemory w = some (total, none)) :
    (maxMemory > total →
      ∃ err, SetMaxMemory w s maxMemory = some (s, some err) ∧
        err.isInvalidSettings = true) ∧
    (maxMemory ≤ total →
      SetMaxMemory w s maxMemory =
        some ({ s with maxMemory := maxMemory, percentMemory := F32.val 0 }, none) ∧
      ∃ r, SetMaxMemory w s maxMemory = some r ∧ r.2 = none ∧ r.1.maxMemory = maxMemory) := by
  constructor
  · intro hgt
    unfold SetMaxMemory
    rw [hquery]
    simp [hgt, GoError.isInvalidSettings]
  · intro hle
    have hng : ¬ maxMemory > total := Nat.not_lt.mpr hle
    unfold SetMaxMemory
    rw [hquery]
    simp [hng]

theorem SetMaxMemory_spec_witness :
    (∃ err, SetMaxMemory twoProcs NewSettings 29359203522345932
        = some (NewSettings, some err) ∧ err.isInvalidSettings = true) ∧
    (SetMaxMemory twoProcs NewSettings (100 * 1024 * 4) =
        some ({ NewSettings with maxMemory := 100 * 1024 * 4, percentMemory := F32.val 0 },
          none) ∧
      ∃ r, SetMaxMemory twoProcs NewSettings (100 * 1024 * 4) = some r ∧ r.2 = none ∧
        r.1.maxMemory = 100 * 1024 * 4) :=
  ⟨(SetMaxMemory_spec twoProcs NewSettings 29359203522345932 _ rfl).1 (by decide),
    (SetMaxMemory_spec twoProcs NewSettings (100 * 1024 * 4) _ rfl).2 (by decide)⟩

/-! ## Claims on refreshPids -/

namespace PidMap

theorem lookup_set (m : PidMap) (k v pid : Int) :
    lookup (set m k v) pid = if k = pid then some v else lookup m pid := by
  induction m with
  | nil => simp [set, lookup]
  | cons e rest ih =>
    obtain ⟨a, x⟩ := e
    by_cases ha : a = k
    · subst ha
      by_cases hp : a = pid
      · simp [set, lookup, hp]
      · simp [set, lookup, hp]
    · by_cases hp : a = pid
      · subst hp
        have hk : ¬ k = a := fun h => ha h.symm
        simp [set, lookup, ha, hk]
      · simp only [set, ha, if_false, lookup, hp, ih]

theorem wf_set (m : PidMap) (k v : Int) (hwf : WF m) : WF (set m k v) := by
  induction m with
  | nil => simp [set, WF, keys]
  | cons e rest ih =>
    obtain ⟨a, x⟩ := e
    simp only [WF, keys, List.map_cons, List.nodup_cons] at hwf
    by_cases ha : a = k
    · simp only [set, ha, if_true, WF, keys, List.map_cons, List.nodup_cons]
      rw [← ha]
      exact hwf
    · have ih1 := ih hwf.2
      simp only [set, ha, if_false]
      show (keys ((a, x) :: set rest k v)).Nodup
      simp only [keys, List.map_cons, List.nodup_cons]
      refine ⟨?_, ih1⟩
      show a ∉ keys (set rest k v)
      rw [← lookup_eq_none_iff, lookup_set]
      have hk : ¬ k = a := fun h => ha h.symm
      simp only [hk, if_false]
      exact (lookup_eq_none_iff rest a).mpr hwf.1

end PidMap

/-- The map built by `findPidsByName`: zero for every pid whose executable is
`name`, on top of the map the loop starts from. -/
theorem lookup_findPids_foldl (name : GoString) (procs : List (Int × GoString)) :
    ∀ (init : PidMap) (pid : Int),
      PidMap.lookup
        (procs.foldl (fun mpids proc => if proc.2 = name then mpids.set proc.1 0 else mpids)
          init) pid =
        if (∃ e ∈ procs, e.1 = pid ∧ e.2 = name) then some 0 else PidMap.lookup init pid := by
  induction procs with
  | nil => intro init pid; simp
  | cons p rest ih =>
    intro init pid
    rw [List.foldl_cons, ih]
    by_cases hrest : ∃ e ∈ rest, e.1 = pid ∧ e.2 = name
    · have hall : ∃ e ∈ p :: rest, e.1 = pid ∧ e.2 = name := by
        obtain ⟨e, he, h⟩ := hrest
        exact ⟨e, List.mem_cons_of_mem _ he, h⟩
      simp only [hrest, hall, if_true]
    · simp only [hrest, if_false]
      by_cases hp : p.1 = pid ∧ p.2 = name
      · have hall : ∃ e ∈ p :: rest, e.1 = pid ∧ e.2 = name :=
          ⟨p, List.mem_cons_self _ _, hp⟩
        simp [hall, hp.2, PidMap.lookup_set, hp.1]
      · have hall : ¬ ∃ e ∈ p :: rest, e.1 = pid ∧ e.2 = name := by
          rintro ⟨e, he, h⟩
          rcases List.mem_cons.mp he with h1 | h1
          · exact hp (h1 ▸ h)
          · exact hrest ⟨e, h1, h⟩
        simp only [hall, if_false]
        by_cases hn : p.2 = name
        · have hne : ¬ p.1 = pid := fun h => hp ⟨h, hn⟩
          simp [hn, PidMap.lookup_set, hne]
        · simp [hn]

/-- The loop of `refreshPids`: a tracked pid keeps its value, an untracked pid
takes the value found for it. -/
theorem lookup_refresh_foldl (found : PidMap) :
    ∀ (m : PidMap) (pid : Int),
      PidMap.lookup
        (found.foldl (fun m e => if m.contains e.1 then m else m.set e.1 e.2) m) pid =
        match PidMap.lookup m pid with
        | some t => some t
        | none => PidMap.lookup found pid := by
  induction found with
  | nil => intro m pid; cases h : PidMap.lookup m pid <;> simp [PidMap.lookup, h]
  | cons e rest ih =>
    intro m pid
    obtain ⟨k, v⟩ := e
    rw [List.foldl_cons, ih]
    by_cases hc : PidMap.contains m k = true
    · simp only [hc, if_true]
      cases hl : PidMap.lookup m pid with
      | some t => rfl
      | none =>
        have hk : ¬ k = pid := by
          rintro rfl
          simp [PidMap.contains, hl] at hc
        simp [PidMap.lookup, hk]
    · simp only [hc, Bool.false_eq_true, if_false, PidMap.lookup_set]
      by_cases hk : k = pid
      · subst hk
        have hl : PidMap.lookup m k = none := by
          simpa [PidMap.contains] using hc
        simp [hl, PidMap.lookup]
      · simp only [hk, if_false]
        cases hl : PidMap.lookup m pid with
        | some t => rfl
        | none => simp [PidMap.lookup, hk]

theorem wf_refresh_foldl (found : PidMap) :
    ∀ (m : PidMap), PidMap.WF m →
      PidMap.WF (found.foldl (fun m e => if m.contains e.1 then m else m.set e.1 e.2) m) := by
  induction found with
  | nil => intro m h; exact h
  | cons e rest ih =>
    intro m h
    rw [List.foldl_cons]
    apply ih
    split
    · exact h
    · exact PidMap.wf_set m _ _ h

/-- After a successful `refreshPids`, the value of each pid. -/
theorem lookup_refreshPids (s : Settings) (w : Provider) (pids : PidMap)
    (procs : List (Int × GoString)) (henum : w.processes = .ok procs) (pid : Int) :
    PidMap.lookup (refreshPids s w pids).1 pid =
      match PidMap.lookup pids pid with
      | some t => some t
      | none => if (∃ e ∈ procs, e.1 = pid ∧ e.2 = s.procName) then some 0 else none := by
  unfold refreshPids findPidsByName
  rw [henum]
  dsimp only
  rw [lookup_refresh_foldl, lookup_findPids_foldl]
  simp [PidMap.lookup]

theorem refreshPids_ok (s : Settings) (w : Provider) (pids : PidMap)
    (procs : List (Int × GoString)) (henum : w.processes = .ok procs) :
    (refreshPids s w pids).2 = none := by
  unfold refreshPids findPidsByName
  rw [henum]

theorem wf_refreshPids (s : Settings) (w : Provider) (pids : PidMap)
    (hwf : PidMap.WF pids) : PidMap.WF (refreshPids s w pids).1 := by
  unfold refreshPids
  split
  · exact hwf
  · exact wf_refresh_foldl _ _ hwf

theorem monitorLoop_append (pre : List Event) :
    ∀ (k k1 : Killer) (rest : List Event), monitorLoop k pre = (k1, none) →
      monitorLoop k (pre ++ rest) = monitorLoop k1 rest := by
  induction pre with
  | nil =>
    intro k k1 rest h
    simp only [monitorLoop, Prod.mk.injEq, and_true] at h
    simp [h]
  | cons ev pre ih =>
    intro k k1 rest h
    cases ev with
    | done => simp [monitorLoop] at h
    | tick w =>
      simp only [List.cons_append, monitorLoop] at h ⊢
      cases hc : cycle k w with
      | mk k2 err =>
        cases err with
        | some e => simp [hc] at h
        | none =>
          simp only [hc] at h ⊢
          exact ih k2 k1 rest h

/-- C8: when enumeration succeeds, `refreshPids` returns nil, keeps the
overage of every tracked pid, gives overage zero to every enumerated pid with
the target name that was not tracked, and the keys afterwards are the old keys
together with the enumerated pids of that name; when enumeration fails it
returns a `MonitorErr` and leaves the mapping unchanged, and `Monitor` returns
that error from the cycle in which it happens. -/
theorem refreshPids_spec (s : Settings) (w : Provider) (pids : PidMap) :
    (∀ procs, w.processes = .ok procs →
      (refreshPids s w pids).2 = none ∧
      (∀ pid t, PidMap.lookup pids pid = some t →
        PidMap.lookup (refreshPids s w pids).1 pid = some t) ∧
      (∀ pid, pid ∉ PidMap.keys pids → (∃ e ∈ procs, e.1 = pid ∧ e.2 = s.procName) →
        PidMap.lookup (refreshPids s w pids).1 pid = some 0) ∧
      (∀ pid, pid ∈ PidMap.keys (refreshPids s w pids).1 ↔
        (pid ∈ PidMap.keys pids ∨ ∃ e ∈ procs, e.1 = pid ∧ e.2 = s.procName))) ∧
    (∀ msg, w.processes = .error msg →
      (∃ err, (refreshPids s w pids).2 = some err ∧ err.isMonitor = true) ∧
      (refreshPids s w pids).1 = pids ∧
      (∀ (k k1 : Killer) (pre rest : List Event), k1.settings = s → k1.pids = pids →
        monitorLoop k pre = (k1, none) →
        monitorLoop k (pre ++ Event.tick w :: rest) = (k1, some (refreshPids s w pids).2))) := by
  constructor
  · intro procs henum
    refine ⟨refreshPids_ok s w pids procs henum, ?_, ?_, ?_⟩
    · intro pid t ht
      rw [lookup_refreshPids s w pids procs henum pid, ht]
    · intro pid hpid hex
      rw [lookup_refreshPids s w pids procs henum pid,
        (PidMap.lookup_eq_none_iff pids pid).mpr hpid]
      simp only [hex, if_true]
    · intro pid
      rw [PidMap.mem_keys_iff, lookup_refreshPids s w pids procs henum pid,
        PidMap.mem_keys_iff]
      cases hl : PidMap.lookup pids pid with
      | some t => simp
      | none =>
        by_cases hex : ∃ e ∈ procs, e.1 = pid ∧ e.2 = s.procName
        · simp only [hex, if_true, or_true, iff_true]
          exact ⟨0, rfl⟩
        · simp [hex]
  · intro msg herr
    have href : refreshPids s w pids =
        (pids, some (GoError.monitor ("error trying to find pids: " ++ msg ++ "\n"))) := by
      unfold refreshPids findPidsByName
      rw [herr]
    refine ⟨⟨GoError.monitor ("error trying to find pids: " ++ msg ++ "\n"),
      by rw [href], rfl⟩, by rw [href], ?_⟩
    intro k k1 pre rest hs hp hpre
    rw [monitorLoop_append pre k k1 _ hpre]
    have hc : cycle k1 w = (k1, (refreshPids s w pids).2) := by
      obtain ⟨ks, km, kp, kc⟩ := k1
      simp only at hs hp
      subst hs hp
      unfold cycle
      rw [href]
    simp only [monitorLoop, hc, href]

theorem refreshPids_spec_witness :
    (PidMap.lookup (refreshPids scenarioSettings twoProcs [(7, 2 * Second)]).1 7
        = some (2 * Second) ∧
      PidMap.lookup (refreshPids scenarioSettings twoProcs [(7, 2 * Second)]).1 5 = some 0) ∧
    (refreshPids scenarioSettings brokenList [(7, 2 * Second)]).1 = [(7, 2 * Second)] ∧
    (monitorLoop (fresh scenarioSettings) ([Event.tick twoProcs] ++
        Event.tick brokenList :: [Event.tick twoProcs])).2
      = some (some (GoError.monitor
          "error trying to find pids: open /proc: permission denied\n")) := by
  have h1 := (refreshPids_spec scenarioSettings twoProcs [(7, 2 * Second)]).1 _ rfl
  have h2 := (refreshPids_spec scenarioSettings brokenList
    (monitorLoop (fresh scenarioSettings) [Event.tick twoProcs]).1.pids).2 _ rfl
  have h3 := (refreshPids_spec scenarioSettings brokenList [(7, 2 * Second)]).2 _ rfl
  refine ⟨⟨h1.2.1 7 _ (by decide), h1.2.2.1 5 (by decide) ⟨(5, memconsume), by decide⟩⟩,
    h3.2.1, ?_⟩
  rw [h2.2.2 (fresh scenarioSettings)
    (monitorLoop (fresh scenarioSettings) [Event.tick twoProcs]).1
    [Event.tick twoProcs] [Event.tick twoProcs] (by decide) rfl (by decide)]
  decide

/-! ## A whole run of Monitor in kill-one mode -/

theorem cycle_snd (k : Killer) (w : Provider) :
    (cycle k w).2 = (refreshPids k.settings w k.pids).2 := by
  unfold cycle
  split
  · rename_i heq; rw [heq]
  · rename_i heq
    rw [heq]
    dsimp only
    split <;> rfl

theorem cycle_settings (k : Killer) (w : Provider) : (cycle k w).1.settings = k.settings := by
  unfold cycle
  split
  · rfl
  · dsimp only
    split <;> rfl

/-- A cycle in kill-one mode whose enumeration succeeds: the mapping and the
channel afterwards. -/
theorem cycle_one (k : Killer) (w : Provider) (hone : k.settings.killAll = false)
    (hok : (refreshPids k.settings w k.pids).2 = none) :
    (cycle k w).1.pids =
      (checkExceeded k.settings w (refreshPids k.settings w k.pids).1).2 ∧
    (cycle k w).1.KilledCh =
      if (checkExceeded k.settings w (refreshPids k.settings w k.pids).1).1 = [] then
        k.KilledCh
      else
        k.KilledCh ++ [(checkExceeded k.settings w (refreshPids k.settings w k.pids).1).1] := by
  have hsplit : refreshPids k.settings w k.pids
      = ((refreshPids k.settings w k.pids).1, none) := by
    rw [← hok]
  have hk := killCheck_one_eq k.settings w (refreshPids k.settings w k.pids).1 hone
  unfold cycle
  rw [hsplit]
  dsimp only
  by_cases he : (checkExceeded k.settings w (refreshPids k.settings w k.pids).1).1 = []
  · simp [hk.1, hk.2, he]
  · have hlen : (checkExceeded k.settings w (refreshPids k.settings w k.pids).1).1.length > 0 :=
      List.length_pos.mpr he
    simp [hk.1, hk.2, he, hlen]

theorem killCount_cycle_one (k : Killer) (w : Provider) (pid : Int)
    (hone : k.settings.killAll = false)
    (hok : (refreshPids k.settings w k.pids).2 = none) :
    killCount (cycle k w).1 pid = killCount k pid +
      if pid ∈ (checkExceeded k.settings w (refreshPids k.settings w k.pids).1).1
        then 1 else 0 := by
  unfold killCount
  rw [(cycle_one k w hone hok).2]
  by_cases he : (checkExceeded k.settings w (refreshPids k.settings w k.pids).1).1 = []
  · simp [he]
  · by_cases hp : pid ∈ (checkExceeded k.settings w (refreshPids k.settings w k.pids).1).1
    · simp [he, hp, List.filter_append]
    · simp [he, hp, List.filter_append]

theorem ticks_succ (env : Nat → Provider) (n : Nat) :
    ticks env (n + 1) = ticks env n ++ [Event.tick (env (n + 1))] := by
  simp [ticks, List.range_succ]

/-- With a successful memory query and a target name, `Monitor` is its loop. -/
theorem Monitor_eq_loop (w0 : Provider) (k : Killer) (events : List Event) (total : Nat)
    (hmem : totalMemory w0 = some (total, none)) (hname : k.settings.procName ≠ []) :
    Monitor w0 k events = some (monitorLoop { k with systemMemory := total } events) := by
  unfold Monitor
  rw [hmem]
  simp [hname]

/-- Under a successful memory query, a target name and a positive interval,
neither `NewKiller` nor `Monitor` panics, and `sampled` is the killer of the
loop. -/
theorem sampled_eq (w0 : Provider) (s : Settings) (env : Nat → Provider)
    (hmem : ∃ total, totalMemory w0 = some (total, none))
    (hname : s.procName ≠ []) (hpos : 0 < s.interval) :
    ∃ total, totalMemory w0 = some (total, none) ∧ NewKiller s = some (fresh s) ∧
      ∀ m, Monitor w0 (fresh s) (ticks env m)
          = some (monitorLoop { fresh s with systemMemory := total } (ticks env m)) ∧
        sampled w0 s env m
          = (monitorLoop { fresh s with systemMemory := total } (ticks env m)).1 := by
  obtain ⟨total, ht⟩ := hmem
  refine ⟨total, ht, NewKiller_eq s hpos, ?_⟩
  intro m
  have hM := Monitor_eq_loop w0 (fresh s) (ticks env m) total ht hname
  refine ⟨hM, ?_⟩
  unfold sampled
  rw [NewKiller_eq s hpos]
  simp only [hM]

/-- While enumeration succeeds the loop keeps running, keeps its settings and
keeps the mapping well formed. -/
theorem loop_running (s : Settings) (env : Nat → Provider) (k0 : Killer)
    (hs : k0.settings = s) (hwf : PidMap.WF k0.pids)
    (henum : ∀ n, ∃ procs, (env n).processes = .ok procs) :
    ∀ n, (monitorLoop k0 (ticks env n)).2 = none ∧
      (monitorLoop k0 (ticks env n)).1.settings = s ∧
      PidMap.WF (monitorLoop k0 (ticks env n)).1.pids ∧
      monitorLoop k0 (ticks env (n + 1)) =
        ((cycle (monitorLoop k0 (ticks env n)).1 (env (n + 1))).1, none) := by
  have hstep : ∀ n, (monitorLoop k0 (ticks env n)).2 = none →
      (monitorLoop k0 (ticks env n)).1.settings = s →
      monitorLoop k0 (ticks env (n + 1)) =
        ((cycle (monitorLoop k0 (ticks env n)).1 (env (n + 1))).1, none) := by
    intro n h2 hset
    have hpre : monitorLoop k0 (ticks env n) = ((monitorLoop k0 (ticks env n)).1, none) := by
      rw [← h2]
    rw [ticks_succ, monitorLoop_append _ _ _ _ hpre]
    obtain ⟨procs, hp⟩ := henum (n + 1)
    have hc := cycle_snd (monitorLoop k0 (ticks env n)).1 (env (n + 1))
    rw [refreshPids_ok _ _ _ procs hp] at hc
    have hcs : cycle (monitorLoop k0 (ticks env n)).1 (env (n + 1))
        = ((cycle (monitorLoop k0 (ticks env n)).1 (env (n + 1))).1, none) := by
      rw [← hc]
    simp only [monitorLoop]
    rw [hcs]
  intro n
  induction n with
  | zero =>
    have h0 : monitorLoop k0 (ticks env 0) = (k0, none) := by simp [ticks, monitorLoop]
    refine ⟨by rw [h0], by rw [h0]; exact hs, by rw [h0]; exact hwf, ?_⟩
    exact hstep 0 (by rw [h0]) (by rw [h0]; exact hs)
  | succ n ih =>
    obtain ⟨h2, hset, hw, hnext⟩ := ih
    have hset1 : (monitorLoop k0 (ticks env (n + 1))).1.settings = s := by
      rw [hnext]
      simp only [cycle_settings, hset]
    have h21 : (monitorLoop k0 (ticks env (n + 1))).2 = none := by rw [hnext]
    refine ⟨h21, hset1, ?_, hstep (n + 1) h21 hset1⟩
    rw [hnext]
    obtain ⟨procs, hp⟩ := henum (n + 1)
    unfold cycle
    split
    · rename_i heq
      have := wf_refreshPids (monitorLoop k0 (ticks env n)).1.settings (env (n + 1)) _ hw
      rw [heq] at this
      exact this
    · rename_i heq
      have hwr := wf_refreshPids (monitorLoop k0 (ticks env n)).1.settings (env (n + 1)) _ hw
      rw [heq] at hwr
      dsimp only
      have hkc : ∀ (st : Settings) (w : Provider) (m : PidMap),
          (killCheck st w m).pids = (checkExceeded st w m).2 := by
        intro st w m
        unfold killCheck
        dsimp only
        split <;> rfl
      split
      · simp only [hkc]
        exact checkExceeded_wf _ _ _ hwr
      · simp only [hkc]
        exact checkExceeded_wf _ _ _ hwr

/-- One sample of a run in kill-one mode whose enumerations succeed. -/
theorem sampled_step (w0 : Provider) (s : Settings) (env : Nat → Provider)
    (hone : s.killAll = false) (hmem : ∃ total, totalMemory w0 = some (total, none))
    (hname : s.procName ≠ []) (hpos : 0 < s.interval) (henum : ∀ n, ∃ procs, (env n).processes = .ok procs)
    (n : Nat) :
    (sampled w0 s env n).settings = s ∧
    PidMap.WF (sampled w0 s env n).pids ∧
    (sampled w0 s env (n + 1)).pids =
      (checkExceeded s (env (n + 1))
        (refreshPids s (env (n + 1)) (sampled w0 s env n).pids).1).2 ∧
    ∀ pid, killCount (sampled w0 s env (n + 1)) pid =
      killCount (sampled w0 s env n) pid +
        if pid ∈ (checkExceeded s (env (n + 1))
          (refreshPids s (env (n + 1)) (sampled w0 s env n).pids).1).1 then 1 else 0 := by
  obtain ⟨total, _, _, hSM⟩ := sampled_eq w0 s env hmem hname hpos
  have hS : ∀ m, sampled w0 s env m =
      (monitorLoop { fresh s with systemMemory := total } (ticks env m)).1 :=
    fun m => (hSM m).2
  obtain ⟨_, hset, hwf, hnext⟩ :=
    loop_running s env { fresh s with systemMemory := total } rfl
      (by simp [fresh, PidMap.WF, PidMap.keys]) henum n
  rw [← hS] at hset hwf
  have hsucc : sampled w0 s env (n + 1) = (cycle (sampled w0 s env n) (env (n + 1))).1 := by
    rw [hS (n + 1), hnext, ← hS]
  have hone1 : (sampled w0 s env n).settings.killAll = false := by rw [hset]; exact hone
  obtain ⟨procs, hp⟩ := henum (n + 1)
  have hok : (refreshPids (sampled w0 s env n).settings (env (n + 1))
      (sampled w0 s env n).pids).2 = none := refreshPids_ok _ _ _ procs hp
  refine ⟨hset, hwf, ?_, ?_⟩
  · rw [hsucc, (cycle_one _ _ hone1 hok).1, hset]
  · intro pid
    rw [hsucc, killCount_cycle_one _ _ pid hone1 hok, hset]

theorem sampled_zero (w0 : Provider) (s : Settings) (env : Nat → Provider)
    (hmem : ∃ total, totalMemory w0 = some (total, none)) (hname : s.procName ≠ []) (hpos : 0 < s.interval) :
    (sampled w0 s env 0).pids = [] ∧ (sampled w0 s env 0).KilledCh = [] := by
  obtain ⟨total, _, _, hSM⟩ := sampled_eq w0 s env hmem hname hpos
  rw [(hSM 0).2]
  simp [ticks, monitorLoop, fresh]

theorem killCount_sampled_mono (w0 : Provider) (s : Settings) (env : Nat → Provider)
    (hone : s.killAll = false) (hmem : ∃ total, totalMemory w0 = some (total, none))
    (hname : s.procName ≠ []) (hpos : 0 < s.interval) (henum : ∀ n, ∃ procs, (env n).processes = .ok procs)
    (pid : Int) (n m : Nat) (hnm : n ≤ m) :
    killCount (sampled w0 s env n) pid ≤ killCount (sampled w0 s env m) pid := by
  induction m with
  | zero =>
    have : n = 0 := Nat.le_zero.mp hnm
    rw [this]
  | succ m ih =>
    rcases Nat.lt_or_ge n (m + 1) with h | h
    · have h1 := ih (Nat.lt_succ_iff.mp h)
      have h2 := (sampled_step w0 s env hone hmem hname hpos henum m).2.2.2 pid
      rw [h2]
      exact Nat.le_trans h1 (Nat.le_add_right _ _)
    · have : n = m + 1 := Nat.le_antisymm hnm h
      rw [this]

theorem wrapInt64_eq (x : Int) (h0 : 0 ≤ x) (h1 : x < 2 ^ 63) : wrapInt64 x = x := by
  unfold wrapInt64
  have h2 : (x + 2 ^ 63) % 2 ^ 64 = x + 2 ^ 63 :=
    Int.emod_eq_of_lt (by linarith) (by linarith)
  rw [h2]
  ring

/-- The overage stored after a sample for a pid that resolves and is over the
threshold at that sample: what was stored before, plus one interval. -/
theorem lookup_sampled_over (w0 : Provider) (s : Settings) (env : Nat → Provider)
    (hone : s.killAll = false) (hmem : ∃ total, totalMemory w0 = some (total, none))
    (hname : s.procName ≠ []) (hpos : 0 < s.interval) (henum : ∀ n, ∃ procs, (env n).processes = .ok procs)
    (pid v : Int) (n : Nat)
    (hbefore : PidMap.lookup (refreshPids s (env (n + 1)) (sampled w0 s env n).pids).1 pid
      = some v)
    (hres : (env (n + 1)).newProcess (toInt32 pid) = true)
    (hover : isOverThreshold s (env (n + 1)) (toInt32 pid) = true) :
    PidMap.lookup (sampled w0 s env (n + 1)).pids pid = some (wrapInt64 (v + s.interval)) ∧
    (pid ∈ (checkExceeded s (env (n + 1))
        (refreshPids s (env (n + 1)) (sampled w0 s env n).pids).1).1 ↔ s.allowedTime ≤ v) := by
  obtain ⟨_, hwf, hpids, _⟩ := sampled_step w0 s env hone hmem hname hpos henum n
  have hwr := wf_refreshPids s (env (n + 1)) _ hwf
  constructor
  · rw [hpids, lookup_checkExceeded _ _ _ hwr, hbefore]
    simp [entryAfter, hres, hover]
  · rw [mem_checkExceeded _ _ _ hwr]
    constructor
    · rintro ⟨t1, hl, hmark⟩
      rw [hbefore] at hl
      cases hl
      simpa [isMarked, hres, hover] using hmark
    · intro h
      exact ⟨v, hbefore, by simp [isMarked, hres, hover, h]⟩

/-- While the pid has not been reported as killed and the sum stays in the
64-bit range, the overage stored after `n + 1` samples is `n + 1` intervals. -/
theorem sampled_accumulates (w0 : Provider) (s : Settings) (env : Nat → Provider)
    (pid : Int) (hone : s.killAll = false) (hmem : ∃ total, totalMemory w0 = some (total, none))
    (hname : s.procName ≠ []) (hpos : 0 < s.interval) (henum : ∀ n, ∃ procs, (env n).processes = .ok procs)
    (halive : ∀ n, killCount (sampled w0 s env n) pid = 0 →
      (env (n + 1)).newProcess (toInt32 pid) = true ∧
      isOverThreshold s (env (n + 1)) (toInt32 pid) = true)
    (hfirst : ∃ procs, (env 1).processes = .ok procs ∧ (pid, s.procName) ∈ procs) :
    ∀ n : Nat, killCount (sampled w0 s env n) pid = 0 →
      ((n : Int) + 1) * s.interval < 2 ^ 63 →
      PidMap.lookup (sampled w0 s env (n + 1)).pids pid = some (((n : Int) + 1) * s.interval) := by
  intro n
  induction n with
  | zero =>
    intro hz hb
    obtain ⟨hres, hover⟩ := halive 0 hz
    obtain ⟨procs, hp, hin⟩ := hfirst
    have hbefore : PidMap.lookup (refreshPids s (env (0 + 1)) (sampled w0 s env 0).pids).1 pid
        = some 0 := by
      rw [lookup_refreshPids s _ _ procs hp pid, (sampled_zero w0 s env hmem hname hpos).1]
      have hex : ∃ e ∈ procs, e.1 = pid ∧ e.2 = s.procName := ⟨_, hin, rfl, rfl⟩
      simp [PidMap.lookup, hex]
    have h := (lookup_sampled_over w0 s env hone hmem hname hpos henum pid 0 0 hbefore hres hover).1
    rw [h]
    simp only [Nat.cast_zero, zero_add, one_mul] at hb ⊢
    rw [wrapInt64_eq _ (le_of_lt hpos) hb]
  | succ n ih =>
    intro hz hb
    have hzn : killCount (sampled w0 s env n) pid = 0 := by
      have := killCount_sampled_mono w0 s env hone hmem hname hpos henum pid n (n + 1)
        (Nat.le_succ n)
      omega
    push_cast at hb
    have hbn : ((n : Int) + 1) * s.interval < 2 ^ 63 := by nlinarith
    have hprev := ih hzn hbn
    obtain ⟨hres, hover⟩ := halive (n + 1) hz
    obtain ⟨procs, hp⟩ := henum (n + 1 + 1)
    have hbefore : PidMap.lookup
        (refreshPids s (env (n + 1 + 1)) (sampled w0 s env (n + 1)).pids).1 pid
        = some (((n : Int) + 1) * s.interval) := by
      rw [lookup_refreshPids s _ _ procs hp pid, hprev]
    have h := (lookup_sampled_over w0 s env hone hmem hname hpos henum pid _ (n + 1)
      hbefore hres hover).1
    rw [h]
    have hnn : (0 : Int) ≤ (n : Int) := Int.natCast_nonneg n
    have h0 : 0 ≤ ((n : Int) + 1) * s.interval + s.interval := by nlinarith
    have h1 : ((n : Int) + 1) * s.interval + s.interval < 2 ^ 63 := by nlinarith
    rw [wrapInt64_eq _ h0 h1]
    push_cast
    ring_nf

/-- While every overage stored so far is below `allowedTime`, the pid has not
been reported as killed. -/
theorem sampled_quiet (w0 : Provider) (s : Settings) (env : Nat → Provider)
    (pid : Int) (hone : s.killAll = false) (hmem : ∃ total, totalMemory w0 = some (total, none))
    (hname : s.procName ≠ []) (hpos : 0 < s.interval) (henum : ∀ n, ∃ procs, (env n).processes = .ok procs)
    (halive : ∀ n, killCount (sampled w0 s env n) pid = 0 →
      (env (n + 1)).newProcess (toInt32 pid) = true ∧
      isOverThreshold s (env (n + 1)) (toInt32 pid) = true)
    (hal : s.allowedTime < 2 ^ 63)
    (hfirst : ∃ procs, (env 1).processes = .ok procs ∧ (pid, s.procName) ∈ procs) :
    ∀ n : Nat, (∀ j : Nat, j < n → (j : Int) * s.interval < s.allowedTime) →
      killCount (sampled w0 s env n) pid = 0 := by
  intro n
  induction n with
  | zero =>
    intro _
    simp [killCount, (sampled_zero w0 s env hmem hname hpos).2]
  | succ n ih =>
    intro hq
    have hzn : killCount (sampled w0 s env n) pid = 0 :=
      ih (fun j hj => hq j (Nat.lt_succ_of_lt hj))
    have hlt : (n : Int) * s.interval < s.allowedTime := hq n (Nat.lt_succ_self n)
    obtain ⟨hres, hover⟩ := halive n hzn
    obtain ⟨procs, hp⟩ := henum (n + 1)
    have hbefore : PidMap.lookup (refreshPids s (env (n + 1)) (sampled w0 s env n).pids).1 pid
        = some ((n : Int) * s.interval) := by
      cases n with
      | zero =>
        obtain ⟨procs1, hp1, hin⟩ := hfirst
        rw [lookup_refreshPids s _ _ procs1 hp1 pid, (sampled_zero w0 s env hmem hname hpos).1]
        have hex : ∃ e ∈ procs1, e.1 = pid ∧ e.2 = s.procName := ⟨_, hin, rfl, rfl⟩
        simp [PidMap.lookup, hex]
      | succ m =>
        have hzm : killCount (sampled w0 s env m) pid = 0 := by
          have := killCount_sampled_mono w0 s env hone hmem hname hpos henum pid m (m + 1)
            (Nat.le_succ m)
          omega
        have hacc := sampled_accumulates w0 s env pid hone hmem hname hpos henum halive hfirst
          m hzm (by push_cast at hlt; linarith)
        rw [lookup_refreshPids s _ _ procs hp pid, hacc]
        push_cast
        rfl
    have hmark := (lookup_sampled_over w0 s env hone hmem hname hpos henum pid _ n
      hbefore hres hover).2
    have hnot : pid ∉ (checkExceeded s (env (n + 1))
        (refreshPids s (env (n + 1)) (sampled w0 s env n).pids).1).1 := by
      rw [hmark]
      exact not_le.mpr hlt
    rw [(sampled_step w0 s env hone hmem hname hpos henum n).2.2.2 pid, hzn]
    simp [hnot]

/-- Once the overage stored for the pid after sample `n0` is at least
`allowedTime`, exactly one notification contains the pid from sample `n0 + 1`
on. -/
theorem killCount_after_reach (w0 : Provider) (s : Settings) (env : Nat → Provider)
    (pid : Int) (hone : s.killAll = false) (hmem : ∃ total, totalMemory w0 = some (total, none))
    (hname : s.procName ≠ []) (hpos : 0 < s.interval) (henum : ∀ n, ∃ procs, (env n).processes = .ok procs)
    (halive : ∀ n, killCount (sampled w0 s env n) pid = 0 →
      (env (n + 1)).newProcess (toInt32 pid) = true ∧
      isOverThreshold s (env (n + 1)) (toInt32 pid) = true)
    (hdead : ∀ n m, 0 < killCount (sampled w0 s env n) pid → n < m →
      (env m).newProcess (toInt32 pid) = false)
    (n0 : Nat) (t : Int)
    (hreach : PidMap.lookup (sampled w0 s env n0).pids pid = some t)
    (ht : s.allowedTime ≤ t) :
    ∀ N, n0 + 1 ≤ N → killCount (sampled w0 s env N) pid = 1 := by
  have hle : ∀ n, killCount (sampled w0 s env n) pid ≤ 1 := by
    intro n
    induction n with
    | zero =>
      have h0 := (sampled_zero w0 s env hmem hname hpos).2
      simp [killCount, h0]
    | succ n ih =>
      obtain ⟨_, hwf, _, hcount⟩ := sampled_step w0 s env hone hmem hname hpos henum n
      rw [hcount pid]
      rcases Nat.eq_zero_or_pos (killCount (sampled w0 s env n) pid) with hz | hpos
      · rw [hz]
        split <;> simp
      · have hd := hdead n (n + 1) hpos (Nat.lt_succ_self n)
        have hnot : pid ∉ (checkExceeded s (env (n + 1))
            (refreshPids s (env (n + 1)) (sampled w0 s env n).pids).1).1 := by
          rw [mem_checkExceeded _ _ _ (wf_refreshPids _ _ _ hwf)]
          rintro ⟨t1, _, hmark⟩
          simp [isMarked, hd] at hmark
        simp only [hnot, if_false, Nat.add_zero]
        exact ih
  have hge : 1 ≤ killCount (sampled w0 s env (n0 + 1)) pid := by
    obtain ⟨_, hwf, _, hcount⟩ := sampled_step w0 s env hone hmem hname hpos henum n0
    rw [hcount pid]
    rcases Nat.eq_zero_or_pos (killCount (sampled w0 s env n0) pid) with hz | hpos
    · obtain ⟨hres, hover⟩ := halive n0 hz
      obtain ⟨procs, hp⟩ := henum (n0 + 1)
      have hin : pid ∈ (checkExceeded s (env (n0 + 1))
          (refreshPids s (env (n0 + 1)) (sampled w0 s env n0).pids).1).1 := by
        rw [mem_checkExceeded _ _ _ (wf_refreshPids _ _ _ hwf)]
        refine ⟨t, ?_, ?_⟩
        · rw [lookup_refreshPids s _ _ procs hp pid, hreach]
        · simp [isMarked, hres, hover, ht]
      simp [hin]
    · exact Nat.le_trans hpos (Nat.le_add_right _ _)
  intro N hN
  have hmono := killCount_sampled_mono w0 s env hone hmem hname hpos henum pid (n0 + 1) N hN
  exact Nat.le_antisymm (hle N) (Nat.le_trans hge hmono)

/-- In kill-one mode `kill` is called on each marked pid, in order. -/
theorem killCheck_one_killed (s : Settings) (w : Provider) (pids : PidMap)
    (hone : s.killAll = false) :
    (killCheck s w pids).killed =
      (checkExceeded s w pids).1.map (fun pid => (pid, kill w pid)) := by
  unfold killCheck
  by_cases he : (checkExceeded s w pids).1.length = 0
  · have hnil : (checkExceeded s w pids).1 = [] := List.length_eq_zero.mp he
    simp [hnil]
  · simp [he, hone]

theorem cycle_one_kills (k : Killer) (w : Provider) (hone : k.settings.killAll = false)
    (hok : (refreshPids k.settings w k.pids).2 = none) :
    (cycle k w).1.kills = k.kills ++
      (checkExceeded k.settings w (refreshPids k.settings w k.pids).1).1.map
        (fun pid => (pid, kill w pid)) := by
  have hsplit : refreshPids k.settings w k.pids
      = ((refreshPids k.settings w k.pids).1, none) := by
    rw [← hok]
  have hk := killCheck_one_killed k.settings w (refreshPids k.settings w k.pids).1 hone
  unfold cycle
  rw [hsplit]
  dsimp only
  split
  · simp only [hk]
  · simp only [hk]

theorem checkExceeded_nodup (s : Settings) (w : Provider) (pids : PidMap)
    (hwf : PidMap.WF pids) : (checkExceeded s w pids).1.Nodup := by
  rw [checkExceeded_eq s w pids hwf]
  unfold PidMap.WF PidMap.keys at hwf
  exact List.Nodup.sublist (List.Sublist.map _ (List.filter_sublist _)) hwf

theorem length_filter_calls (l : List Int) (f : Int → Option String) (pid : Int)
    (hn : l.Nodup) :
    ((l.map (fun q => (q, f q))).filter (fun e => decide (e.1 = pid))).length =
      if pid ∈ l then 1 else 0 := by
  induction l with
  | nil => simp
  | cons a l ih =>
    simp only [List.nodup_cons] at hn
    have ih1 := ih hn.2
    by_cases ha : a = pid
    · subst ha
      have hnot : ¬ a ∈ l := hn.1
      simp only [hnot, if_false] at ih1
      simp [List.filter_cons, ih1]
    · have hne : ¬ pid = a := fun h => ha h.symm
      simp only [List.map_cons, List.filter_cons, ha, decide_False, Bool.false_eq_true,
        if_false, List.mem_cons, hne, false_or]
      exact ih1

/-- One sample of a run in kill-one mode: the calls of `kill` it makes. -/
theorem sampled_kills_step (w0 : Provider) (s : Settings) (env : Nat → Provider)
    (hone : s.killAll = false) (hmem : ∃ total, totalMemory w0 = some (total, none))
    (hname : s.procName ≠ []) (hpos : 0 < s.interval)
    (henum : ∀ n, ∃ procs, (env n).processes = .ok procs) (n : Nat) :
    (sampled w0 s env (n + 1)).kills = (sampled w0 s env n).kills ++
      (checkExceeded s (env (n + 1))
        (refreshPids s (env (n + 1)) (sampled w0 s env n).pids).1).1.map
          (fun pid => (pid, kill (env (n + 1)) pid)) := by
  obtain ⟨total, _, _, hSM⟩ := sampled_eq w0 s env hmem hname hpos
  have hS : ∀ m, sampled w0 s env m =
      (monitorLoop { fresh s with systemMemory := total } (ticks env m)).1 :=
    fun m => (hSM m).2
  obtain ⟨_, hset, _, hnext⟩ :=
    loop_running s env { fresh s with systemMemory := total } rfl
      (by simp [fresh, PidMap.WF, PidMap.keys]) henum n
  rw [← hS] at hset
  have hsucc : sampled w0 s env (n + 1) = (cycle (sampled w0 s env n) (env (n + 1))).1 := by
    rw [hS (n + 1), hnext, ← hS]
  have hone1 : (sampled w0 s env n).settings.killAll = false := by rw [hset]; exact hone
  obtain ⟨procs, hp⟩ := henum (n + 1)
  have hok : (refreshPids (sampled w0 s env n).settings (env (n + 1))
      (sampled w0 s env n).pids).2 = none := refreshPids_ok _ _ _ procs hp
  rw [hsucc, cycle_one_kills _ _ hone1 hok, hset]

theorem sampled_zero_kills (w0 : Provider) (s : Settings) (env : Nat → Provider)
    (hmem : ∃ total, totalMemory w0 = some (total, none))
    (hname : s.procName ≠ []) (hpos : 0 < s.interval) :
    (sampled w0 s env 0).kills = [] := by
  obtain ⟨total, _, _, hSM⟩ := sampled_eq w0 s env hmem hname hpos
  rw [(hSM 0).2]
  simp [ticks, monitorLoop, fresh]

/-- In a run in kill-one mode, the calls of `kill` on a pid are as many as the
notifications that contain it. -/
theorem killCalls_eq_killCount (w0 : Provider) (s : Settings) (env : Nat → Provider)
    (hone : s.killAll = false) (hmem : ∃ total, totalMemory w0 = some (total, none))
    (hname : s.procName ≠ []) (hpos : 0 < s.interval)
    (henum : ∀ n, ∃ procs, (env n).processes = .ok procs) (pid : Int) (n : Nat) :
    killCalls (sampled w0 s env n) pid = killCount (sampled w0 s env n) pid := by
  induction n with
  | zero =>
    simp [killCalls, killCount, sampled_zero_kills w0 s env hmem hname hpos,
      (sampled_zero w0 s env hmem hname hpos).2]
  | succ n ih =>
    obtain ⟨_, hwf, _, hcount⟩ := sampled_step w0 s env hone hmem hname hpos henum n
    rw [hcount pid, ← ih]
    unfold killCalls
    rw [sampled_kills_step w0 s env hone hmem hname hpos henum n, List.filter_append,
      List.length_append,
      length_filter_calls _ _ pid
        (checkExceeded_nodup _ _ _ (wf_refreshPids _ _ _ hwf))]

theorem called_iff_killCalls (k : Killer) (pid : Int) :
    pid ∈ k.kills.map Prod.fst ↔ 0 < killCalls k pid := by
  unfold killCalls
  rw [List.length_pos_iff_exists_mem]
  simp only [List.mem_map, List.mem_filter, decide_eq_true_eq]

/-- C4: with interval > 0, in kill-one mode, in a run whose enumerations
succeed, take a pid whose process resolves and is over the threshold at every
sample until `kill` has been called on the pid, and no longer resolves at the
samples after that call. Then neither `NewKiller` nor `Monitor` panics and the
loop keeps running. If after sample `n0` the overage stored for the pid is at
least `allowedTime`, then at some sample no later than `n0 + 1` `kill` is
called on the pid for the first time, on a process that resolves, and the call
returns the result of `proc.Kill()`; and at every later point of the run `kill`
has been called on the pid exactly once and exactly one notification contains
the pid. Moreover, with the pid enumerated at the first sample and no 64-bit
overflow before `allowedTime` is reached, there is a first such sample `n0`:
the overage stored after sample `j` is `j` intervals up to `n0`. -/
theorem monitor_kills_once (w0 : Provider) (s : Settings) (env : Nat → Provider)
    (pid : Int) (hpos : 0 < s.interval) (hone : s.killAll = false)
    (hmem : ∃ total, totalMemory w0 = some (total, none))
    (hname : s.procName ≠ []) (henum : ∀ n, ∃ procs, (env n).processes = .ok procs)
    (halive : ∀ n, pid ∉ (sampled w0 s env n).kills.map Prod.fst →
      (env (n + 1)).newProcess (toInt32 pid) = true ∧
      isOverThreshold s (env (n + 1)) (toInt32 pid) = true)
    (hdead : ∀ n m, pid ∈ (sampled w0 s env n).kills.map Prod.fst → n < m →
      (env m).newProcess (toInt32 pid) = false) :
    (NewKiller s = some (fresh s) ∧
      ∀ n, ∃ r, Monitor w0 (fresh s) (ticks env n) = some r ∧ r.2 = none ∧
        r.1 = sampled w0 s env n) ∧
    (∀ (n0 : Nat) (t : Int), PidMap.lookup (sampled w0 s env n0).pids pid = some t →
      s.allowedTime ≤ t →
      (∃ m, m ≤ n0 ∧ pid ∉ (sampled w0 s env m).kills.map Prod.fst ∧
        (env (m + 1)).newProcess (toInt32 pid) = true ∧
        (pid, (env (m + 1)).killProc (toInt32 pid)) ∈ (sampled w0 s env (m + 1)).kills) ∧
      ∀ N, n0 + 1 ≤ N →
        killCalls (sampled w0 s env N) pid = 1 ∧ killCount (sampled w0 s env N) pid = 1) ∧
    (s.interval < 2 ^ 63 → s.allowedTime + s.interval < 2 ^ 63 →
      (∃ procs, (env 1).processes = .ok procs ∧ (pid, s.procName) ∈ procs) →
      ∃ n0 : Nat, 1 ≤ n0 ∧
        PidMap.lookup (sampled w0 s env n0).pids pid = some ((n0 : Int) * s.interval) ∧
        s.allowedTime ≤ (n0 : Int) * s.interval ∧
        (∀ j : Nat, 1 ≤ j → j < n0 →
          PidMap.lookup (sampled w0 s env j).pids pid = some ((j : Int) * s.interval) ∧
          (j : Int) * s.interval < s.allowedTime) ∧
        ∀ N, n0 + 1 ≤ N →
          killCalls (sampled w0 s env N) pid = 1 ∧ killCount (sampled w0 s env N) pid = 1) := by
  have hcalls := killCalls_eq_killCount w0 s env hone hmem hname hpos henum pid
  have hiff : ∀ n, pid ∈ (sampled w0 s env n).kills.map Prod.fst ↔
      0 < killCount (sampled w0 s env n) pid := by
    intro n
    rw [called_iff_killCalls, hcalls n]
  have halive1 : ∀ n, killCount (sampled w0 s env n) pid = 0 →
      (env (n + 1)).newProcess (toInt32 pid) = true ∧
      isOverThreshold s (env (n + 1)) (toInt32 pid) = true := by
    intro n hz
    apply halive n
    rw [hiff n]
    omega
  have hdead1 : ∀ n m, 0 < killCount (sampled w0 s env n) pid → n < m →
      (env m).newProcess (toInt32 pid) = false :=
    fun n m hp hnm => hdead n m ((hiff n).mpr hp) hnm
  have hA := killCount_after_reach w0 s env pid hone hmem hname hpos henum halive1 hdead1
  have hA2 : ∀ (n0 : Nat) (t : Int),
      PidMap.lookup (sampled w0 s env n0).pids pid = some t → s.allowedTime ≤ t →
      ∀ N, n0 + 1 ≤ N →
        killCalls (sampled w0 s env N) pid = 1 ∧ killCount (sampled w0 s env N) pid = 1 := by
    intro n0 t hl ht N hN
    have h1 := hA n0 t hl ht N hN
    exact ⟨by rw [hcalls N, h1], h1⟩
  refine ⟨?_, ?_, ?_⟩
  · obtain ⟨total, _, hnew, hSM⟩ := sampled_eq w0 s env hmem hname hpos
    refine ⟨hnew, ?_⟩
    intro n
    refine ⟨_, (hSM n).1, ?_, (hSM n).2.symm⟩
    exact (loop_running s env { fresh s with systemMemory := total } rfl
      (by simp [fresh, PidMap.WF, PidMap.keys]) henum n).1
  · intro n0 t hl ht
    refine ⟨?_, hA2 n0 t hl ht⟩
    -- the first sample at which kill is called on the pid
    have hex : ∃ j, pid ∈ (sampled w0 s env (j + 1)).kills.map Prod.fst := by
      refine ⟨n0, ?_⟩
      rw [hiff (n0 + 1), hA n0 t hl ht (n0 + 1) (le_refl _)]
      exact Nat.one_pos
    classical
    have hfind := Nat.find_spec hex
    have hmin : ∀ j, j < Nat.find hex →
        pid ∉ (sampled w0 s env (j + 1)).kills.map Prod.fst :=
      fun j hj => Nat.find_min hex hj
    have hle : Nat.find hex ≤ n0 := by
      apply Nat.find_min' hex
      rw [hiff (n0 + 1), hA n0 t hl ht (n0 + 1) (le_refl _)]
      exact Nat.one_pos
    generalize Nat.find hex = m at hfind hmin hle
    have hbefore : pid ∉ (sampled w0 s env m).kills.map Prod.fst := by
      cases m with
      | zero => simp [sampled_zero_kills w0 s env hmem hname hpos]
      | succ j => exact hmin j (Nat.lt_succ_self j)
    have hres := (halive m hbefore).1
    refine ⟨m, hle, hbefore, hres, ?_⟩
    have hstep := sampled_kills_step w0 s env hone hmem hname hpos henum m
    rw [hstep] at hfind ⊢
    simp only [List.map_append, List.mem_append, List.map_map, List.mem_map,
      Function.comp_apply] at hfind
    rcases hfind with hold | ⟨q, hq, hqp⟩
    · exact absurd (by simpa using hold) hbefore
    · subst hqp
      apply List.mem_append_right
      refine List.mem_map.mpr ⟨q, hq, ?_⟩
      simp [kill, hres]
  · intro hib hbound hfirst
    have hal : s.allowedTime < 2 ^ 63 := by linarith
    have hex : ∃ n : Nat, 1 ≤ n ∧ s.allowedTime ≤ (n : Int) * s.interval := by
      refine ⟨s.allowedTime.toNat + 1, Nat.le_add_left _ _, ?_⟩
      have h1 : s.allowedTime ≤ (s.allowedTime.toNat : Int) := Int.self_le_toNat _
      have h2 : (0 : Int) ≤ (s.allowedTime.toNat : Int) := Int.natCast_nonneg _
      push_cast
      nlinarith
    classical
    have hfind := Nat.find_spec hex
    have hmin : ∀ j : Nat, 1 ≤ j → j < Nat.find hex →
        (j : Int) * s.interval < s.allowedTime := by
      intro j hj hlt
      have := Nat.find_min hex hlt
      simp only [not_and, not_le] at this
      exact this hj
    generalize Nat.find hex = n0 at hfind hmin
    obtain ⟨hn0, hreach⟩ := hfind
    obtain ⟨m, rfl⟩ : ∃ m, n0 = m + 1 := ⟨n0 - 1, by omega⟩
    have hquiet : ∀ j : Nat, j < m → (j : Int) * s.interval < s.allowedTime := by
      intro j hj
      rcases Nat.eq_zero_or_pos j with h0 | hjpos
      · subst h0
        have h1 := hmin 1 (le_refl 1) (by omega)
        simp only [Nat.cast_one, one_mul, Nat.cast_zero, zero_mul] at h1 ⊢
        linarith
      · exact hmin j hjpos (by omega)
    have hzm : killCount (sampled w0 s env m) pid = 0 :=
      sampled_quiet w0 s env pid hone hmem hname hpos henum halive1 hal hfirst m hquiet
    have hbm : ((m : Int) + 1) * s.interval < 2 ^ 63 := by
      rcases Nat.eq_zero_or_pos m with h0 | hmpos
      · subst h0
        simpa using hib
      · have h1 := hmin m hmpos (Nat.lt_succ_self m)
        linarith
    have hacc := sampled_accumulates w0 s env pid hone hmem hname hpos henum halive1 hfirst
    have hlook : PidMap.lookup (sampled w0 s env (m + 1)).pids pid
        = some (((m + 1 : Nat) : Int) * s.interval) := by
      rw [hacc m hzm hbm]
      push_cast
      rfl
    refine ⟨m + 1, hn0, hlook, hreach, ?_, hA2 (m + 1) _ hlook hreach⟩
    intro j hj hlt
    obtain ⟨i, rfl⟩ : ∃ i, j = i + 1 := ⟨j - 1, by omega⟩
    have hzi : killCount (sampled w0 s env i) pid = 0 := by
      have := killCount_sampled_mono w0 s env hone hmem hname hpos henum pid i m (by omega)
      omega
    have hji := hmin (i + 1) hj hlt
    refine ⟨?_, hji⟩
    have hbi : ((i : Int) + 1) * s.interval < 2 ^ 63 := by
      push_cast at hji
      linarith
    rw [hacc i hzi hbi]
    push_cast
    rfl

theorem monitor_kills_once_witness :
    (PidMap.lookup (sampled twoProcs scenarioSettings scenarioRun 2).pids 5 = some (2 * Second) ∧
      PidMap.lookup (sampled twoProcs scenarioSettings scenarioRun 3).pids 5 = some (3 * Second) ∧
      scenarioSettings.allowedTime = 3 * Second ∧
      (sampled twoProcs scenarioSettings scenarioRun 3).kills = [] ∧
      (sampled twoProcs scenarioSettings scenarioRun 4).kills = [(5, none)]) ∧
    ((∃ m, m ≤ 3 ∧ (5 : Int) ∉ (sampled twoProcs scenarioSettings scenarioRun m).kills.map Prod.fst ∧
        (scenarioRun (m + 1)).newProcess (toInt32 5) = true ∧
        ((5 : Int), (scenarioRun (m + 1)).killProc (toInt32 5))
          ∈ (sampled twoProcs scenarioSettings scenarioRun (m + 1)).kills) ∧
      ∀ N, 3 + 1 ≤ N →
        killCalls (sampled twoProcs scenarioSettings scenarioRun N) 5 = 1 ∧
        killCount (sampled twoProcs scenarioSettings scenarioRun N) 5 = 1) ∧
    (∃ n0 : Nat, 1 ≤ n0 ∧
      PidMap.lookup (sampled twoProcs scenarioSettings scenarioRun n0).pids 5
        = some ((n0 : Int) * scenarioSettings.interval) ∧
      scenarioSettings.allowedTime ≤ (n0 : Int) * scenarioSettings.interval ∧
      (∀ j : Nat, 1 ≤ j → j < n0 →
        PidMap.lookup (sampled twoProcs scenarioSettings scenarioRun j).pids 5
          = some ((j : Int) * scenarioSettings.interval) ∧
        (j : Int) * scenarioSettings.interval < scenarioSettings.allowedTime) ∧
      ∀ N, n0 + 1 ≤ N →
        killCalls (sampled twoProcs scenarioSettings scenarioRun N) 5 = 1 ∧
        killCount (sampled twoProcs scenarioSettings scenarioRun N) 5 = 1) := by
  have hmem : ∃ total, totalMemory twoProcs = some (total, none) := ⟨_, rfl⟩
  have hpos : 0 < scenarioSettings.interval := by decide
  have henum : ∀ n, ∃ procs, (scenarioRun n).processes = .ok procs := by
    intro n
    unfold scenarioRun
    split
    · exact ⟨_, rfl⟩
    · exact ⟨_, rfl⟩
  have hiff : ∀ n, (5 : Int) ∈ (sampled twoProcs scenarioSettings scenarioRun n).kills.map Prod.fst ↔
      0 < killCount (sampled twoProcs scenarioSettings scenarioRun n) 5 := by
    intro n
    rw [called_iff_killCalls, killCalls_eq_killCount twoProcs scenarioSettings scenarioRun
      (by decide) hmem (by decide) hpos henum 5 n]
  have h4 : killCount (sampled twoProcs scenarioSettings scenarioRun 4) 5 = 1 := by decide
  have hsmall : ∀ n, n < 4 → killCount (sampled twoProcs scenarioSettings scenarioRun n) 5 = 0 := by
    intro n hn
    interval_cases n <;> decide
  have halive : ∀ n, (5 : Int) ∉ (sampled twoProcs scenarioSettings scenarioRun n).kills.map Prod.fst →
      (scenarioRun (n + 1)).newProcess (toInt32 5) = true ∧
      isOverThreshold scenarioSettings (scenarioRun (n + 1)) (toInt32 5) = true := by
    intro n hz
    rw [hiff n] at hz
    have hn : n < 4 := by
      by_contra hcon
      have hmono := killCount_sampled_mono twoProcs scenarioSettings scenarioRun (by decide)
        hmem (by decide) hpos henum 5 4 n (Nat.le_of_not_lt hcon)
      omega
    interval_cases n <;> decide
  have hdead : ∀ n m, (5 : Int) ∈ (sampled twoProcs scenarioSettings scenarioRun n).kills.map Prod.fst →
      n < m → (scenarioRun m).newProcess (toInt32 5) = false := by
    intro n m hcalled hnm
    rw [hiff n] at hcalled
    have hn : ¬ n < 4 := by
      intro hcon
      have := hsmall n hcon
      omega
    have hm : ¬ m ≤ 4 := by omega
    simp [scenarioRun, hm, noProcs]
  have h := monitor_kills_once twoProcs scenarioSettings scenarioRun 5 hpos (by decide) hmem
    (by decide) henum halive hdead
  exact ⟨by decide, h.2.1 3 (3 * Second) (by decide) (by decide),
    h.2.2 (by decide) (by decide) ⟨_, rfl, by decide⟩⟩

/-! ## Claims on the setters -/

/-- A setter call keeps the property that at most one threshold is non-zero. -/
theorem run_atMostOne (s : Settings) (c : SetterCall)
    (h : ¬ (s.maxMemory ≠ 0 ∧ s.percentMemory.neZero = true)) :
    ¬ ((c.run s).maxMemory ≠ 0 ∧ (c.run s).percentMemory.neZero = true) := by
  cases c with
  | setMaxMemory w maxMemory =>
    simp only [SetterCall.run]
    cases hr : SetMaxMemory w s maxMemory with
    | none => exact h
    | some r =>
      simp only
      unfold SetMaxMemory at hr
      split at hr
      · cases hr
      · cases hr
        exact h
      · split at hr
        · cases hr
          exact h
        · cases hr
          simp [F32.neZero, F32.isZero]
  | setPercentMemory percentMemory =>
    simp only [SetterCall.run, SetPercentMemory]
    split
    · exact h
    · simp
  | procName linux name =>
    simp only [SetterCall.run, ProcName]
    split
    · exact h
    · exact h
  | killAll => exact h
  | setInterval interval =>
    simp only [SetterCall.run, SetInterval]
    split
    · exact h
    · exact h
  | setAllowedTime allowedTime =>
    simp only [SetterCall.run, SetAllowedTime]
    split
    · exact h
    · exact h
  | debug => exact h

theorem foldl_run_atMostOne (calls : List SetterCall) :
    ∀ s : Settings, ¬ (s.maxMemory ≠ 0 ∧ s.percentMemory.neZero = true) →
      ¬ ((calls.foldl SetterCall.run s).maxMemory ≠ 0 ∧
        (calls.foldl SetterCall.run s).percentMemory.neZero = true) := by
  induction calls with
  | nil => intro s h; exact h
  | cons c rest ih =>
    intro s h
    rw [List.foldl_cons]
    exact ih _ (run_atMostOne s c h)

/-- C11: a successful `SetMaxMemory` leaves `percentMemory` zero, a successful
`SetPercentMemory` leaves `maxMemory` zero, and in every settings reached from
`NewSettings` by setter calls at most one of the two is non-zero. -/
theorem thresholds_atMostOne :
    (∀ (w : Provider) (s : Settings) (maxMemory : Nat) (r : Settings × Option GoError),
      SetMaxMemory w s maxMemory = some r → r.2 = none →
      r.1.percentMemory = F32.val 0 ∧ r.1.percentMemory.neZero = false) ∧
    (∀ (s : Settings) (percentMemory : F32),
      (SetPercentMemory s percentMemory).2 = none →
      (SetPercentMemory s percentMemory).1.maxMemory = 0) ∧
    (∀ calls : List SetterCall,
      ¬ ((reached calls).maxMemory ≠ 0 ∧ (reached calls).percentMemory.neZero = true)) := by
  refine ⟨?_, ?_, ?_⟩
  · intro w s maxMemory r hr h
    unfold SetMaxMemory at hr
    split at hr
    · cases hr
    · cases hr
      simp at h
    · split at hr
      · cases hr
        simp at h
      · cases hr
        simp [F32.neZero, F32.isZero]
  · intro s percentMemory h
    unfold SetPercentMemory at h ⊢
    split at h
    · simp at h
    · rename_i hc
      simp only [hc, if_false]
      trivial
  · intro calls
    exact foldl_run_atMostOne calls NewSettings (by simp [NewSettings])

theorem thresholds_atMostOne_witness :
    (SetMaxMemory twoProcs NewSettings (100 * 1024 * 4) =
        some ({ NewSettings with maxMemory := 100 * 1024 * 4, percentMemory := F32.val 0 },
          none) ∧
      ({ NewSettings with maxMemory := 100 * 1024 * 4, percentMemory := F32.val 0 }
        : Settings).percentMemory.neZero = false) ∧
    (SetPercentMemory scenarioSettings (F32.val 50)).1.maxMemory = 0 ∧
    ¬ ((reached [SetterCall.setPercentMemory (F32.val 50),
          SetterCall.setMaxMemory twoProcs 4096]).maxMemory ≠ 0 ∧
        (reached [SetterCall.setPercentMemory (F32.val 50),
          SetterCall.setMaxMemory twoProcs 4096]).percentMemory.neZero = true) :=
  ⟨⟨by decide, (thresholds_atMostOne.1 twoProcs NewSettings (100 * 1024 * 4)
      ({ NewSettings with maxMemory := 100 * 1024 * 4, percentMemory := F32.val 0 }, none)
      (by decide) rfl).2⟩,
    thresholds_atMostOne.2.1 scenarioSettings (F32.val 50) (by decide),
    thresholds_atMostOne.2.2 _⟩

/-- C12, at the failing input: `SetMaxMemory(0)` on `NewSettings` returns nil
and leaves both thresholds zero, so no threshold is active in the settings
reached, and `isOverThreshold` is false for a process holding 200 MB and 80 %
of memory; `SetPercentMemory(0)` is refused. -/
theorem setMaxMemory_zero_clears_both :
    SetMaxMemory twoProcs NewSettings 0 =
      some ({ NewSettings with maxMemory := 0, percentMemory := F32.val 0 }, none) ∧
    (reached [SetterCall.setMaxMemory twoProcs 0]).maxMemory = 0 ∧
    (reached [SetterCall.setMaxMemory twoProcs 0]).percentMemory.neZero = false ∧
    isOverThreshold (reached [SetterCall.setMaxMemory twoProcs 0]) twoProcs 5 = false ∧
    (SetPercentMemory NewSettings (F32.val 0)).2 =
      some (GoError.invalidSettings "percent of memory can not be 0 or > 100") := by
  decide

/-- C13, as stated, fails: the value -5 is not in the range (0,100], yet
`SetPercentMemory(-5)` returns nil and stores -5 as the percentage threshold;
NaN is stored as well. -/
theorem setPercentMemory_accepts_negative :
    ¬ ((0 : ℚ) < -5 ∧ (-5 : ℚ) ≤ 100) ∧
    (SetPercentMemory NewSettings (F32.val (-5))).2 = none ∧
    (SetPercentMemory NewSettings (F32.val (-5))).1.percentMemory = F32.val (-5) ∧
    (SetPercentMemory NewSettings F32.nan).2 = none ∧
    (SetPercentMemory NewSettings F32.nan).1.percentMemory = F32.nan := by
  decide

/-- C13, amended: for `p = 0` and for every `p > 100`, `SetPercentMemory(p)`
returns an `InvalidSettingsErr` and leaves the settings unchanged; a percentage
stored by a successful call is not 0 and not greater than 100, and is the value
passed. -/
theorem SetPercentMemory_spec (s : Settings) (p : F32) :
    ((p.isZero = true ∨ p.gt (F32.val 100) = true) →
      (SetPercentMemory s p).1 = s ∧
      ∃ err, (SetPercentMemory s p).2 = some err ∧ err.isInvalidSettings = true) ∧
    ((SetPercentMemory s p).2 = none →
      (SetPercentMemory s p).1.percentMemory = p ∧
      p.isZero = false ∧ p.gt (F32.val 100) = false) := by
  constructor
  · intro h
    have hc : (p.isZero || p.gt (F32.val 100)) = true := by
      rcases h with h | h <;> simp [h]
    unfold SetPercentMemory
    simp [hc, GoError.isInvalidSettings]
  · intro h
    unfold SetPercentMemory at h ⊢
    split at h
    · simp at h
    · rename_i hc
      have hc2 := hc
      simp only [Bool.or_eq_true, not_or, Bool.not_eq_true] at hc2
      refine ⟨?_, hc2.1, hc2.2⟩
      simp [hc]

theorem SetPercentMemory_spec_witness :
    ((SetPercentMemory NewSettings (F32.val 150)).1 = NewSettings ∧
      ∃ err, (SetPercentMemory NewSettings (F32.val 150)).2 = some err ∧
        err.isInvalidSettings = true) ∧
    ((SetPercentMemory NewSettings (F32.val 50)).1.percentMemory = F32.val 50 ∧
      (F32.val 50).isZero = false ∧ (F32.val 50).gt (F32.val 100) = false) :=
  ⟨(SetPercentMemory_spec NewSettings (F32.val 150)).1 (Or.inr (by decide)),
    (SetPercentMemory_spec NewSettings (F32.val 50)).2 (by decide)⟩

/-- C14, at the failing input: `SetInterval` with an interval of -1 s returns
nil and stores the negative interval, although its own error text says the
interval must be greater than 0; only the interval 0 is refused. -/
theorem setInterval_accepts_negative :
    (-1 * Second : Int) < 0 ∧
    (SetInterval NewSettings (-1 * Second)).2 = none ∧
    (SetInterval NewSettings (-1 * Second)).1.interval = -1 * Second ∧
    (SetInterval NewSettings 0) =
      (NewSettings, some (GoError.invalidSettings "interval must be greater than 0")) := by
  decide

/-- C15: `SetAllowedTime(d)` returns an `InvalidSettingsErr` and leaves the
settings unchanged if and only if `d` is at most the interval stored at the
call; otherwise it returns nil and stores `d`, changing no other field, so
that `allowedTime > interval` holds afterwards. -/
theorem SetAllowedTime_spec (s : Settings) (d : Int) :
    ((SetAllowedTime s d).2 ≠ none ↔ d ≤ s.interval) ∧
    (d ≤ s.interval →
      (SetAllowedTime s d).1 = s ∧
      ∃ err, (SetAllowedTime s d).2 = some err ∧ err.isInvalidSettings = true) ∧
    (¬ d ≤ s.interval →
      (SetAllowedTime s d).2 = none ∧
      (SetAllowedTime s d).1 = { s with allowedTime := d } ∧
      (SetAllowedTime s d).1.allowedTime > (SetAllowedTime s d).1.interval) := by
  by_cases h : d ≤ s.interval
  · refine ⟨?_, ?_, fun hn => absurd h hn⟩
    · simp [SetAllowedTime, h]
    · intro _
      simp [SetAllowedTime, h, GoError.isInvalidSettings]
  · refine ⟨?_, fun hd => absurd hd h, ?_⟩
    · simp [SetAllowedTime, h]
    · intro _
      simp only [SetAllowedTime, h, if_false]
      exact ⟨trivial, trivial, lt_of_not_le h⟩

theorem SetAllowedTime_spec_witness :
    ((SetAllowedTime NewSettings (1 * Second)).1 = NewSettings ∧
      ∃ err, (SetAllowedTime NewSettings (1 * Second)).2 = some err ∧
        err.isInvalidSettings = true) ∧
    ((SetAllowedTime NewSettings (5 * Second)).2 = none ∧
      (SetAllowedTime NewSettings (5 * Second)).1
        = { NewSettings with allowedTime := 5 * Second } ∧
      (SetAllowedTime NewSettings (5 * Second)).1.allowedTime
        > (SetAllowedTime NewSettings (5 * Second)).1.interval) :=
  ⟨(SetAllowedTime_spec NewSettings (1 * Second)).2.1 (by decide),
    (SetAllowedTime_spec NewSettings (5 * Second)).2.2 (by decide)⟩

/-- C16: `ProcName` fails with an `InvalidSettingsErr`, leaving the settings
unchanged, if and only if the name is empty; otherwise on linux it stores the
first 15 bytes of a name longer than 15 bytes and the name itself when it is
not longer, and on other platforms it stores the name itself; the stored name
is not empty, and `ProcName` with the stored name stores the same name. -/
theorem ProcName_spec (linux : Bool) (s : Settings) (name : GoString) :
    ((ProcName linux s name).2 ≠ none ↔ name = []) ∧
    (name = [] →
      (ProcName linux s name).1 = s ∧
      ∃ err, (ProcName linux s name).2 = some err ∧ err.isInvalidSettings = true) ∧
    (name ≠ [] →
      (ProcName linux s name).2 = none ∧
      (linux = true → name.length > 15 →
        (ProcName linux s name).1 = { s with procName := name.take 15 }) ∧
      (linux = true → name.length ≤ 15 →
        (ProcName linux s name).1 = { s with procName := name }) ∧
      (linux = false → (ProcName linux s name).1 = { s with procName := name }) ∧
      (ProcName linux s name).1.procName ≠ [] ∧
      ProcName linux (ProcName linux s name).1 (ProcName linux s name).1.procName
        = ((ProcName linux s name).1, none)) := by
  by_cases h : name = []
  · refine ⟨?_, ?_, fun hn => absurd h hn⟩
    · simp [ProcName, h]
    · intro _
      simp [ProcName, h, GoError.isInvalidSettings]
  · refine ⟨?_, fun hd => absurd hd h, ?_⟩
    · simp [ProcName, h]
    · intro _
      have hpos : 0 < name.length := List.length_pos.mpr h
      by_cases hl : linux = true
      · by_cases hlen : name.length > 15
        · have hne : List.take 15 name ≠ [] := by
            intro hcon
            have := congrArg List.length hcon
            simp only [List.length_take, List.length_nil] at this
            omega
          have hshort : ¬ (List.take 15 name).length > 15 := by
            simp only [List.length_take]
            omega
          simp [ProcName, h, hl, hlen, hne, hshort]
        · have hlen2 : name.length ≤ 15 := Nat.le_of_not_lt hlen
          simp [ProcName, h, hl, hlen, hlen2]
      · have hl2 : linux = false := by simpa using hl
        simp [ProcName, h, hl2]

theorem ProcName_spec_witness :
    ((ProcName true NewSettings []).1 = NewSettings ∧
      ∃ err, (ProcName true NewSettings []).2 = some err ∧ err.isInvalidSettings = true) ∧
    (ProcName true NewSettings (memconsume ++ memconsume)).1.procName
      = [109, 101, 109, 99, 111, 110, 115, 117, 109, 101, 109, 101, 109, 99, 111] ∧
    (ProcName true NewSettings memconsume).1.procName = memconsume ∧
    (ProcName false NewSettings (memconsume ++ memconsume)).1.procName
      = memconsume ++ memconsume := by
  have h0 := (ProcName_spec true NewSettings []).2.1 rfl
  have h1 := (ProcName_spec true NewSettings (memconsume ++ memconsume)).2.2 (by decide)
  have h2 := (ProcName_spec true NewSettings memconsume).2.2 (by decide)
  have h3 := (ProcName_spec false NewSettings (memconsume ++ memconsume)).2.2 (by decide)
  refine ⟨h0, ?_, ?_, ?_⟩
  · rw [h1.2.1 rfl (by decide)]
    decide
  · rw [h2.2.2.1 rfl (by decide)]
  · rw [h3.2.2.2.1 rfl]

/-! ## Claims on the lifecycle -/

/-- How `Monitor` starts: it panics when `mem.VirtualMemory` returns a nil
pointer; it returns the error of the query when the library returns a struct
with it; after a successful query it returns a `MonitorErr` for an empty target
name and otherwise runs the sampling loop on the events. -/
theorem Monitor_entry (w0 : Provider) (k : Killer) (events : List Event) :
    (w0.virtualMemory.1 = none → Monitor w0 k events = none) ∧
    (∀ total msg, w0.virtualMemory = (some total, some msg) →
      Monitor w0 k events =
        some ({ k with systemMemory := total }, some (some (GoError.library msg)))) ∧
    (∀ total, w0.virtualMemory = (some total, none) → k.settings.procName = [] →
      Monitor w0 k events =
        some ({ k with systemMemory := total },
          some (some (GoError.monitor "procname not properly supplied")))) ∧
    (∀ total, w0.virtualMemory = (some total, none) → k.settings.procName ≠ [] →
      Monitor w0 k events = some (monitorLoop { k with systemMemory := total } events)) := by
  refine ⟨?_, ?_, ?_, ?_⟩
  · intro h
    have ht : totalMemory w0 = none := by
      unfold totalMemory
      split
      · rfl
      · rename_i heq
        rw [heq] at h
        cases h
    unfold Monitor
    rw [ht]
  · intro total msg h
    have ht : totalMemory w0 = some (total, some msg) := by
      unfold totalMemory
      rw [h]
    unfold Monitor
    rw [ht]
  · intro total h hname
    have ht : totalMemory w0 = some (total, none) := by
      unfold totalMemory
      rw [h]
    unfold Monitor
    rw [ht]
    simp [hname]
  · intro total h hname
    have ht : totalMemory w0 = some (total, none) := by
      unfold totalMemory
      rw [h]
    exact Monitor_eq_loop w0 k events total ht hname

/-- C17, at the failing input: `mem.VirtualMemory` returns a nil pointer with
its error; `totalMemory` reads `v.Total` before the error is tested and panics,
and so does `Monitor`, whatever the killer and the events: the error is not
returned. When the library returns a struct with the error, `Monitor` returns
that error, and after a successful query with an empty target name it returns
a `MonitorErr`. -/
theorem Monitor_panics_on_nil_memory :
    nilMemory.virtualMemory = (none, some "sysctl: operation not permitted") ∧
    totalMemory nilMemory = none ∧
    (∀ (k : Killer) (events : List Event), Monitor nilMemory k events = none) ∧
    (∀ (k : Killer) (events : List Event),
      Monitor failedMemory k events =
        some ({ k with systemMemory := 0 }, some (some (GoError.library "no meminfo")))) ∧
    Monitor twoProcs (fresh NewSettings) [Event.tick twoProcs] =
      some ({ fresh NewSettings with systemMemory := 8 * 1024 * 1024 * 1024 },
        some (some (GoError.monitor "procname not properly supplied"))) :=
  ⟨rfl, rfl, fun _ _ => rfl, fun _ _ => rfl, by decide⟩

/-- C18, as stated, fails: `SetInterval(-1s)` is accepted, and for the settings
it leaves `NewKiller` does not return: `Reset` panics in `time.NewTicker`; the
same happens for settings with the zero interval. -/
theorem NewKiller_panics_on_nonpositive_interval :
    SetInterval NewSettings (-1 * Second)
      = ({ NewSettings with interval := -1 * Second }, none) ∧
    NewKiller { NewSettings with interval := -1 * Second } = none ∧
    Reset (fresh { NewSettings with interval := -1 * Second }) = none ∧
    NewKiller { NewSettings with interval := 0 } = none ∧
    Reset { sampled twoProcs scenarioSettings scenarioRun 3 with
      settings := { scenarioSettings with interval := 0 } } = none := by
  decide

/-- C18, amended: for every killer whose settings have a positive interval,
`Reset` returns, and afterwards the tracked mapping is empty, whatever it held,
no notification of the former channel remains and the settings are the same;
for settings with a positive interval `NewKiller` returns a killer in this same
state. -/
theorem Reset_clean (k : Killer) (s : Settings) :
    (0 < k.settings.interval →
      ∃ k1, Reset k = some k1 ∧ k1.pids = [] ∧
        (∀ pid, PidMap.lookup k1.pids pid = none) ∧ k1.KilledCh = [] ∧
        k1.settings = k.settings ∧
        ∃ k2, NewKiller k.settings = some k2 ∧ k1.pids = k2.pids ∧
          k1.KilledCh = k2.KilledCh ∧ k1.settings = k2.settings) ∧
    (0 < s.interval →
      ∃ k2, NewKiller s = some k2 ∧ k2.pids = [] ∧ k2.KilledCh = [] ∧ k2.settings = s) := by
  constructor
  · intro h
    refine ⟨_, Reset_eq k h, rfl, fun _ => rfl, rfl, rfl, ?_⟩
    exact ⟨_, NewKiller_eq k.settings h, rfl, rfl, rfl⟩
  · intro h
    exact ⟨_, NewKiller_eq s h, rfl, rfl, rfl⟩

theorem Reset_clean_witness :
    (sampled twoProcs scenarioSettings scenarioRun 3).pids ≠ [] ∧
    (∃ k1, Reset (sampled twoProcs scenarioSettings scenarioRun 3) = some k1 ∧ k1.pids = [] ∧
      (∀ pid, PidMap.lookup k1.pids pid = none) ∧ k1.KilledCh = [] ∧
      k1.settings = (sampled twoProcs scenarioSettings scenarioRun 3).settings ∧
      ∃ k2, NewKiller (sampled twoProcs scenarioSettings scenarioRun 3).settings = some k2 ∧
        k1.pids = k2.pids ∧ k1.KilledCh = k2.KilledCh ∧ k1.settings = k2.settings) ∧
    (∃ k2, NewKiller scenarioSettings = some k2 ∧ k2.pids = [] ∧ k2.KilledCh = [] ∧
      k2.settings = scenarioSettings) :=
  ⟨by decide,
    (Reset_clean (sampled twoProcs scenarioSettings scenarioRun 3) scenarioSettings).1
      (by decide),
    (Reset_clean (sampled twoProcs scenarioSettings scenarioRun 3) scenarioSettings).2
      (by decide)⟩

/-- C20, at the failing input: in kill-all mode with pids 5 and 7 tracked and
pid 5 marked, `killCheck` returns and passes to `kill` the pid 0, which is a
key of the mapping neither before nor after the pass. -/
theorem killCheck_killAll_kills_untracked :
    (0 : Int) ∉ PidMap.keys [(5, 3 * Second), (7, 0)] ∧
    (0 : Int) ∉ PidMap.keys
      (killCheck (KillAll scenarioSettings) twoProcs [(5, 3 * Second), (7, 0)]).pids ∧
    (0 : Int) ∈ (killCheck (KillAll scenarioSettings) twoProcs
      [(5, 3 * Second), (7, 0)]).pidsToKill ∧
    (0 : Int) ∈ ((killCheck (KillAll scenarioSettings) twoProcs
      [(5, 3 * Second), (7, 0)]).killed.map Prod.fst) ∧
    (0 : Int) ∈ (killCheck (KillAll scenarioSettings) twoProcs
      [(7, 0), (5, 3 * Second)]).pidsToKill ∧
    NewKiller (KillAll scenarioSettings) = some (fresh (KillAll scenarioSettings)) ∧
    (cycle { fresh (KillAll scenarioSettings) with pids := [(5, 3 * Second), (7, 0)] }
      twoProcs).1.KilledCh = [[7, 0]] ∧
    (cycle { fresh (KillAll scenarioSettings) with pids := [(5, 3 * Second), (7, 0)] }
      twoProcs).1.kills.map Prod.fst = [7, 0] := by
  decide

/-! ## Claims on the accumulated overage -/

theorem wrapInt64_eq_of_range (x : Int) (h0 : -2 ^ 63 ≤ x) (h1 : x < 2 ^ 63) :
    wrapInt64 x = x := by
  unfold wrapInt64
  have h2 : (x + 2 ^ 63) % 2 ^ 64 = x + 2 ^ 63 :=
    Int.emod_eq_of_lt (by linarith) (by linarith)
  rw [h2]
  ring

namespace PidMap

theorem lookup_delete (m : PidMap) (pid q : Int) (h : q ≠ pid) :
    lookup (delete m pid) q = lookup m q := by
  induction m with
  | nil => rfl
  | cons e rest ih =>
    obtain ⟨a, x⟩ := e
    unfold delete at ih ⊢
    by_cases ha : a = pid
    · have haq : ¬ a = q := fun h2 => h (h2.symm.trans ha)
      simp only [List.filter_cons, ha, ne_eq, not_true_eq_false, decide_False,
        Bool.false_eq_true, if_false]
      rw [ih]
      subst ha
      simp [lookup, haq]
    · simp only [List.filter_cons, ne_eq, ha, not_false_eq_true, decide_True, if_true, lookup]
      rw [ih]

theorem wf_delete (m : PidMap) (pid : Int) (hwf : WF m) : WF (delete m pid) := by
  unfold WF keys delete at *
  exact List.Nodup.sublist (List.Sublist.map _ (List.filter_sublist _)) hwf

end PidMap

/-- The mapping after a cycle whose enumeration succeeds, in either mode. -/
theorem cycle_pids (k : Killer) (w : Provider)
    (hok : (refreshPids k.settings w k.pids).2 = none) :
    (cycle k w).1.pids =
      (checkExceeded k.settings w (refreshPids k.settings w k.pids).1).2 := by
  have hsplit : refreshPids k.settings w k.pids
      = ((refreshPids k.settings w k.pids).1, none) := by
    rw [← hok]
  have hkc : ∀ (m : PidMap), (killCheck k.settings w m).pids = (checkExceeded k.settings w m).2 := by
    intro m
    unfold killCheck
    dsimp only
    split <;> rfl
  unfold cycle
  rw [hsplit]
  dsimp only
  split
  · exact hkc _
  · exact hkc _

/-- The overage stored after a cycle for a pid that resolves and is over the
threshold: the value the refreshed mapping held, plus one interval. -/
theorem lookup_cycle_over (k : Killer) (w : Provider) (pid v : Int)
    (hwf : PidMap.WF k.pids) (procs : List (Int × GoString))
    (henum : w.processes = .ok procs)
    (hbefore : PidMap.lookup (refreshPids k.settings w k.pids).1 pid = some v)
    (hres : w.newProcess (toInt32 pid) = true)
    (hover : isOverThreshold k.settings w (toInt32 pid) = true) :
    PidMap.lookup (cycle k w).1.pids pid = some (wrapInt64 (v + k.settings.interval)) := by
  rw [cycle_pids k w (refreshPids_ok _ _ _ procs henum),
    lookup_checkExceeded _ _ _ (wf_refreshPids _ _ _ hwf), hbefore]
  simp [entryAfter, hres, hover]

/-- From the sample at which a pid is first tracked, `n + 1` consecutive
samples at which it resolves and is over the threshold leave `n + 1` intervals
as its overage, as long as that stays in the 64-bit range. -/
theorem loop_accumulates (k : Killer) (env : Nat → Provider) (pid : Int)
    (hwf : PidMap.WF k.pids) (hnew : pid ∉ PidMap.keys k.pids)
    (henum : ∀ n, ∃ procs, (env n).processes = .ok procs)
    (hfirst : ∃ procs, (env 1).processes = .ok procs ∧ (pid, k.settings.procName) ∈ procs)
    (hint : 0 < k.settings.interval) :
    ∀ n : Nat,
      (∀ j, j < n + 1 → (env (j + 1)).newProcess (toInt32 pid) = true ∧
        isOverThreshold k.settings (env (j + 1)) (toInt32 pid) = true) →
      ((n : Int) + 1) * k.settings.interval < 2 ^ 63 →
      PidMap.lookup (monitorLoop k (ticks env (n + 1))).1.pids pid
        = some (((n : Int) + 1) * k.settings.interval) := by
  intro n
  induction n with
  | zero =>
    intro halive hb
    obtain ⟨_, _, _, hnext⟩ := loop_running k.settings env k rfl hwf henum 0
    have h0 : monitorLoop k (ticks env 0) = (k, none) := by simp [ticks, monitorLoop]
    rw [hnext, h0]
    obtain ⟨hres, hover⟩ := halive 0 (Nat.lt_succ_self 0)
    obtain ⟨procs, hp, hin⟩ := hfirst
    have hbefore : PidMap.lookup (refreshPids k.settings (env (0 + 1)) k.pids).1 pid
        = some 0 := by
      rw [lookup_refreshPids _ _ _ procs hp pid, (PidMap.lookup_eq_none_iff _ _).mpr hnew]
      have hex : ∃ e ∈ procs, e.1 = pid ∧ e.2 = k.settings.procName := ⟨_, hin, rfl, rfl⟩
      simp [hex]
    rw [lookup_cycle_over k (env (0 + 1)) pid 0 hwf procs hp hbefore hres hover]
    simp only [Nat.cast_zero, zero_add, one_mul] at hb ⊢
    rw [wrapInt64_eq _ (le_of_lt hint) hb]
  | succ n ih =>
    intro halive hb
    push_cast at hb
    have hnn : (0 : Int) ≤ (n : Int) := Int.natCast_nonneg n
    have hbn : ((n : Int) + 1) * k.settings.interval < 2 ^ 63 := by nlinarith
    have hprev := ih (fun j hj => halive j (Nat.lt_succ_of_lt hj)) hbn
    obtain ⟨_, hset, hwfn, hnext⟩ := loop_running k.settings env k rfl hwf henum (n + 1)
    rw [hnext]
    obtain ⟨hres, hover⟩ := halive (n + 1) (Nat.lt_succ_self _)
    obtain ⟨procs, hp⟩ := henum (n + 1 + 1)
    rw [← hset] at hover
    have hbefore : PidMap.lookup
        (refreshPids (monitorLoop k (ticks env (n + 1))).1.settings (env (n + 1 + 1))
          (monitorLoop k (ticks env (n + 1))).1.pids).1 pid
        = some (((n : Int) + 1) * k.settings.interval) := by
      rw [lookup_refreshPids _ _ _ procs hp pid, hprev]
    rw [lookup_cycle_over _ (env (n + 1 + 1)) pid _ hwfn procs hp hbefore hres hover, hset]
    have h0 : 0 ≤ ((n : Int) + 1) * k.settings.interval + k.settings.interval := by nlinarith
    have h1 : ((n : Int) + 1) * k.settings.interval + k.settings.interval < 2 ^ 63 := by
      nlinarith
    rw [wrapInt64_eq _ h0 h1]
    push_cast
    ring_nf

/-- C19, as stated, fails: with an interval of 2^62 ns, pid 5 is tracked with
one interval of overage, resolves and is over the threshold; the addition of a
second interval leaves the 64-bit range and wraps, so `checkExceeded` stores
-2^63, which is not the former value plus one interval, and after two
consecutive samples over the threshold from the first tracking the overage is
not two times the interval. -/
theorem overage_wraps_around :
    (0 : Int) < longSettings.interval ∧
    PidMap.lookup [(5, 4611686018427387904)] 5 = some 4611686018427387904 ∧
    twoProcs.newProcess (toInt32 5) = true ∧
    isOverThreshold longSettings twoProcs (toInt32 5) = true ∧
    PidMap.lookup (checkExceeded longSettings twoProcs [(5, 4611686018427387904)]).2 5
      = some (-9223372036854775808) ∧
    PidMap.lookup (checkExceeded longSettings twoProcs [(5, 4611686018427387904)]).2 5
      ≠ some (4611686018427387904 + longSettings.interval) ∧
    NewKiller longSettings = some (fresh longSettings) ∧
    PidMap.lookup (monitorLoop (fresh longSettings) (ticks steadyRun 1)).1.pids 5
      = some (1 * longSettings.interval) ∧
    PidMap.lookup (monitorLoop (fresh longSettings) (ticks steadyRun 2)).1.pids 5
      = some (-9223372036854775808) ∧
    PidMap.lookup (monitorLoop (fresh longSettings) (ticks steadyRun 2)).1.pids 5
      ≠ some (2 * longSettings.interval) := by
  decide

/-- C19, amended: for a tracked pid that resolves and is over the threshold,
`checkExceeded` stores the former overage plus one interval, wrapped to 64
bits, which is exactly one interval more when the sum is in the 64-bit range,
and the value it stores for any other pid is the one it stores when this pid is
not in the mapping. Consequently, with interval > 0, after `n + 1` consecutive
samples over the threshold starting from the sample at which the pid is first
tracked, its overage is `n + 1` times the interval, as long as that product is
below 2^63. -/
theorem overage_adds_interval :
    (∀ (s : Settings) (w : Provider) (pids : PidMap) (pid t : Int),
      PidMap.WF pids → PidMap.lookup pids pid = some t →
      w.newProcess (toInt32 pid) = true → isOverThreshold s w (toInt32 pid) = true →
      PidMap.lookup (checkExceeded s w pids).2 pid = some (wrapInt64 (t + s.interval)) ∧
      (-2 ^ 63 ≤ t + s.interval → t + s.interval < 2 ^ 63 →
        PidMap.lookup (checkExceeded s w pids).2 pid = some (t + s.interval)) ∧
      (∀ q, q ≠ pid →
        PidMap.lookup (checkExceeded s w pids).2 q
          = PidMap.lookup (checkExceeded s w (pids.delete pid)).2 q)) ∧
    (∀ (k : Killer) (env : Nat → Provider) (pid : Int) (n : Nat),
      PidMap.WF k.pids → pid ∉ PidMap.keys k.pids →
      (∀ i, ∃ procs, (env i).processes = .ok procs) →
      (∃ procs, (env 1).processes = .ok procs ∧ (pid, k.settings.procName) ∈ procs) →
      0 < k.settings.interval →
      (∀ j, j < n + 1 → (env (j + 1)).newProcess (toInt32 pid) = true ∧
        isOverThreshold k.settings (env (j + 1)) (toInt32 pid) = true) →
      ((n : Int) + 1) * k.settings.interval < 2 ^ 63 →
      PidMap.lookup (monitorLoop k (ticks env (n + 1))).1.pids pid
        = some (((n : Int) + 1) * k.settings.interval)) := by
  constructor
  · intro s w pids pid t hwf htracked hres hover
    have hl : PidMap.lookup (checkExceeded s w pids).2 pid
        = some (wrapInt64 (t + s.interval)) := by
      rw [lookup_checkExceeded s w pids hwf pid, htracked]
      simp [entryAfter, hres, hover]
    refine ⟨hl, ?_, ?_⟩
    · intro h0 h1
      rw [hl, wrapInt64_eq_of_range _ h0 h1]
    · intro q hq
      rw [lookup_checkExceeded s w pids hwf q,
        lookup_checkExceeded s w _ (PidMap.wf_delete pids pid hwf) q,
        PidMap.lookup_delete pids pid q hq]
  · intro k env pid n hwf hnew henum hfirst hint halive hb
    exact loop_accumulates k env pid hwf hnew henum hfirst hint n halive hb

theorem overage_adds_interval_witness :
    (PidMap.lookup (checkExceeded scenarioSettings twoProcs [(5, 2 * Second), (7, 0)]).2 5
        = some (2 * Second + scenarioSettings.interval) ∧
      PidMap.lookup (checkExceeded scenarioSettings twoProcs [(5, 2 * Second), (7, 0)]).2 7
        = PidMap.lookup (checkExceeded scenarioSettings twoProcs
            (PidMap.delete [(5, 2 * Second), (7, 0)] 5)).2 7) ∧
    PidMap.lookup (monitorLoop (fresh scenarioSettings) (ticks steadyRun (2 + 1))).1.pids 5
      = some ((((2 : Nat) : Int) + 1) * (fresh scenarioSettings).settings.interval) := by
  have h1 := overage_adds_interval.1 scenarioSettings twoProcs [(5, 2 * Second), (7, 0)] 5
    (2 * Second) (by decide) (by decide) (by decide) (by decide)
  have halive : (twoProcs.newProcess (toInt32 5) = true ∧
      isOverThreshold (fresh scenarioSettings).settings twoProcs (toInt32 5) = true) := by
    decide
  have h2 := overage_adds_interval.2 (fresh scenarioSettings) steadyRun 5 2
    (by decide) (by decide) (fun _ => ⟨_, rfl⟩) ⟨_, rfl, by decide⟩ (by decide)
    (fun _ _ => halive) (by decide)
  exact ⟨⟨h1.2.1 (by decide) (by decide), h1.2.2 7 (by decide)⟩, h2⟩

end Killface
